import Mathlib

/-!
Verification development for the claude-coach log ingestion pipeline
(backend/src/claude_coach/core: parser.py, importer.py, error_analyzer.py).

Events are modelled after the JSON shapes the code reads; timestamps are
modelled post-parse as integer seconds (the code parses ISO strings to
datetimes and only ever subtracts them).  String operations used by the code
(substring test, lower-casing, splitting, the two regex searches) are
implemented by structural recursion over character lists so that every
definition evaluates by kernel reduction.
-/

namespace ClaudeCoach

/-! ## String helpers (Python semantics, over character lists) -/

/-- Python whitespace for `\s` / `str.split()` / `str.strip()` (ASCII part). -/
def pyIsSpace (c : Char) : Bool :=
  c = ' ' || c = '\t' || c = '\n' || c = '\x0d' || c = '\x0b' || c = '\x0c'

/-- Python `needle in hay` substring test, over char lists. -/
def containsSub (needle : List Char) : List Char → Bool
  | [] => needle.isEmpty
  | c :: rest => needle.isPrefixOf (c :: rest) || containsSub needle rest

/-- Python `needle in hay` substring test on strings. -/
def strHas (hay needle : String) : Bool :=
  containsSub needle.data hay.data

/-- Python `str.lower()` (ASCII). -/
def lowerStr (s : String) : String :=
  ⟨s.data.map Char.toLower⟩

/-- Python slicing `s[:n]`. -/
def strTake (s : String) (n : Nat) : String :=
  ⟨s.data.take n⟩

/-- Python `s.split("__")`: split on non-overlapping leftmost occurrences of
the double underscore. -/
def splitDunderAux : List Char → List Char → List (List Char)
  | [], acc => [acc.reverse]
  | [c], acc => [(c :: acc).reverse]
  | c1 :: c2 :: rest, acc =>
    if c1 = '_' && c2 = '_' then
      acc.reverse :: splitDunderAux rest []
    else
      splitDunderAux (c2 :: rest) (c1 :: acc)

def splitDunder (s : String) : List (List Char) :=
  splitDunderAux s.data []

/-- Python `str.split()` with no separator: words between whitespace runs. -/
def pyWordsAux : List Char → List Char → List (List Char)
  | [], acc => if acc.isEmpty then [] else [acc.reverse]
  | c :: rest, acc =>
    if pyIsSpace c then
      if acc.isEmpty then pyWordsAux rest [] else acc.reverse :: pyWordsAux rest []
    else
      pyWordsAux rest (c :: acc)

def pyWords (s : String) : List (List Char) :=
  pyWordsAux s.data []

/-- Scan for `lit` followed by a nonempty run of characters accepted by
`keep`; at each candidate start position the literal must match and the run
must be nonempty, otherwise the scan moves one character right.  This is
`re.search(lit + capture-group, s)` for the two patterns the code uses,
returning the captured group. -/
def reSearchLit (lit : List Char) (keep : Char → Bool) : List Char → Option (List Char)
  | [] => none
  | c :: rest =>
    if lit.isPrefixOf (c :: rest) then
      let tok := ((c :: rest).drop lit.length).takeWhile keep
      if tok.isEmpty then reSearchLit lit keep rest else some tok
    else
      reSearchLit lit keep rest

/-! ## Event model

Shapes of the decoded JSONL events as read by the three core modules.
Optional JSON fields are `Option`; `Option.getD` at use sites mirrors the
code's `dict.get(key, default)`.  Session-metadata fields the verified
claims never touch (`cwd`, `gitBranch`, `version`, `slug`, the model's
`input_preview` rendering) are omitted. -/

/-- `message.usage` of an assistant event (missing fields read as 0). -/
structure Usage where
  input_tokens : Nat := 0
  output_tokens : Nat := 0
  cache_read_input_tokens : Nat := 0
  cache_creation_input_tokens : Nat := 0
deriving Repr, DecidableEq

/-- Input mapping of a `tool_use` part (only the keys the code reads). -/
structure ToolInput where
  file_path : Option String := none
  skill : Option String := none
  subagent_type : Option String := none
  description : Option String := none
  prompt : Option String := none
  model : Option String := none
  command : Option String := none
deriving Repr, DecidableEq

/-- One part of an assistant `message.content` list. -/
inductive ContentPart where
  | text (s : String)
  | tool_use (id : Option String) (name : Option String) (input : ToolInput)
  | otherPart
deriving Repr, DecidableEq

/-- One part of a user `message.content` list. -/
inductive UserPart where
  | tool_result (tool_use_id : Option String) (is_error : Bool) (content : String)
  | otherPart
deriving Repr, DecidableEq

/-- A user event's `message.content`: a plain string, a part list, or some
other JSON value (which the code leaves untouched). -/
inductive UserContent where
  | str (s : String)
  | parts (ps : List UserPart)
  | otherContent
deriving Repr, DecidableEq

/-- The side-channel `toolUseResult` object of a user event (only the keys
the code reads).  An absent `toolUseResult` behaves as the empty dict. -/
structure ToolUseResultPayload where
  filePath : Option String := none
  rtype : Option String := none
  agentId : Option String := none
  status : Option String := none
  totalDurationMs : Option Int := none
  totalTokens : Option Int := none
  totalToolUseCount : Option Int := none
deriving Repr, DecidableEq

/-- A decoded JSONL event.  `toolUseResult = none` models a present but
non-dict value (the code's `isinstance` guard rejects it); an absent key is
`some {}`.  Timestamps are `none` when absent or unparseable. -/
inductive Event where
  | user (timestamp : Option Int) (content : UserContent)
      (toolUseResult : Option ToolUseResultPayload)
  | assistant (timestamp : Option Int) (model : Option String) (usage : Usage)
      (content : List ContentPart)
  | system (timestamp : Option Int) (subtype : Option String)
      (errType : Option String) (errMessage : Option String)
      (retryAttempt : Option Int) (retryInMs : Option Int)
  | otherEvent (timestamp : Option Int)
deriving Repr, DecidableEq

/-- Timestamp carried by any event kind. -/
def Event.ts : Event → Option Int
  | .user t _ _ => t
  | .assistant t _ _ _ => t
  | .system t _ _ _ _ _ => t
  | .otherEvent t => t

/-- One line of a session JSONL file among those the scan loops survive:
empty after strip, rejected by the JSON decoder (`json.JSONDecodeError`,
which both loops catch and skip), or decoded to an object event.  A line
that parses as valid JSON of non-object shape is *not* of this type: it
crashes the scan (see `RawLine` below), so statements over `List Line`
describe the behaviour on files free of such lines. -/
inductive Line where
  | empty
  | malformed
  | ok (e : Event)
deriving Repr, DecidableEq

def Line.isOk : Line → Bool
  | .ok _ => true
  | _ => false

/-- Events of the well-formed lines, in file order. -/
def decodeLines (ls : List Line) : List Event :=
  ls.filterMap fun l => match l with
    | .ok e => some e
    | _ => none

/-! ## Tool classifier (`importer.py`, `_classify_tool`) -/

/-- Result of `_classify_tool`. -/
structure Classification where
  category : String
  mcp_server : Option String
  skill_name : Option String
  subagent_type : Option String
deriving Repr, DecidableEq

/-- `LogImporter._classify_tool`: map a tool name and input to one of the
four categories with its metadata. -/
def classify_tool (tool_name : String) (tool_input : ToolInput) : Classification :=
  if tool_name = "Skill" then
    { category := "skill", mcp_server := none,
      skill_name := some (tool_input.skill.getD "unknown"), subagent_type := none }
  else if tool_name = "Task" then
    { category := "agent", mcp_server := none, skill_name := none,
      subagent_type := some (tool_input.subagent_type.getD "unknown") }
  else if "mcp__".data.isPrefixOf tool_name.data then
    let parts := splitDunder tool_name
    let server_name : String :=
      match parts with
      | _ :: s :: _ :: _ => ⟨s⟩
      | _ => "unknown"
    { category := "mcp", mcp_server := some server_name,
      skill_name := none, subagent_type := none }
  else
    { category := "native", mcp_server := none, skill_name := none,
      subagent_type := none }

/-! ## Read-side session parser (`parser.py`, `LogParser._parse_session_file`) -/

/-- Message as emitted by the read-side parser. -/
structure PMessage where
  role : String
  content : String
  timestamp : Option Int
  model : Option String := none
  input_tokens : Option Nat := none
  output_tokens : Option Nat := none
deriving Repr, DecidableEq

/-- Loop state of `_parse_session_file`.  `tool_calls` keeps the appended
(name, timestamp) pairs; `errors` keeps only the count (the parser only ever
takes the list's length). -/
structure ParserState where
  messages : List PMessage := []
  total_input_tokens : Nat := 0
  total_output_tokens : Nat := 0
  total_cache_read : Nat := 0
  total_cache_create : Nat := 0
  tool_calls : List (String × Option Int) := []
  errors : Nat := 0
  in_plan_mode : Bool := false
  plan_mode_start : Option Int := none
  plan_mode_entries : Nat := 0
  planning_time_seconds : Int := 0
  planning_tokens : Nat := 0
  execution_tokens : Nat := 0
  planning_messages : Nat := 0
  execution_messages : Nat := 0
  last_timestamp : Option Int := none
  first_timestamp : Option Int := none
deriving Repr, DecidableEq

/-- Transition into plan mode (idempotent while already in plan mode). -/
def planEnter (timestamp : Option Int) (st : ParserState) : ParserState :=
  if !st.in_plan_mode then
    { st with in_plan_mode := true, plan_mode_start := timestamp,
              plan_mode_entries := st.plan_mode_entries + 1 }
  else st

/-- Transition out of plan mode on `ExitPlanMode`: only fires when in plan
mode with a recorded start and a current timestamp; accumulates the span's
elapsed seconds. -/
def planLeave (timestamp : Option Int) (st : ParserState) : ParserState :=
  match st.in_plan_mode, st.plan_mode_start, timestamp with
  | true, some a, some b =>
    { st with planning_time_seconds := st.planning_time_seconds + (b - a),
              in_plan_mode := false, plan_mode_start := none }
  | _, _, _ => st

/-- Plan-entry detection over one `tool_result` part of a user event: a
creation-type `toolUseResult` whose `filePath` contains the plans directory
marks the start of plan mode. -/
def userPlanStep (timestamp : Option Int) (tur : Option ToolUseResultPayload)
    (st : ParserState) (p : UserPart) : ParserState :=
  match p with
  | .tool_result _ _ _ =>
    match tur with
    | some r =>
      if strHas (r.filePath.getD "") "/.claude/plans/" && r.rtype == some "create" then
        planEnter timestamp st
      else st
    | none => st
  | .otherPart => st

/-- Per-part processing of an assistant event's content: accumulate text,
record tool calls, and drive the plan-mode transitions (`Write` into the
plans directory enters, `ExitPlanMode` leaves and accumulates the span's
elapsed seconds). -/
def assistantPartStep (timestamp : Option Int) :
    ParserState × String → ContentPart → ParserState × String
  | (st, text), .text s => (st, text ++ s)
  | (st, text), .tool_use _ name input =>
    let tool_name := name.getD ""
    let st := { st with tool_calls := st.tool_calls ++ [(tool_name, timestamp)] }
    if tool_name = "Write" then
      if strHas (input.file_path.getD "") "/.claude/plans/" then
        (planEnter timestamp st, text)
      else (st, text)
    else if tool_name = "ExitPlanMode" then
      (planLeave timestamp st, text)
    else (st, text)
  | (st, text), .otherPart => (st, text)

/-- One decoded event of `_parse_session_file`'s loop body. -/
def parserStep (st : ParserState) (e : Event) : ParserState :=
  let timestamp := e.ts
  let st :=
    if timestamp.isSome && st.first_timestamp.isNone then
      { st with first_timestamp := timestamp }
    else st
  let st :=
    match e with
    | .user _ content tur =>
      match content with
      | .parts ps => ps.foldl (userPlanStep timestamp tur) st
      | .str s =>
        let st := { st with messages := st.messages ++
          [({ role := "user", content := s, timestamp := timestamp } : PMessage)] }
        if st.in_plan_mode then
          { st with planning_messages := st.planning_messages + 1 }
        else
          { st with execution_messages := st.execution_messages + 1 }
      | .otherContent => st
    | .assistant _ model usage content =>
      let msg_tokens := usage.input_tokens + usage.output_tokens
      let st := { st with
        total_input_tokens := st.total_input_tokens + usage.input_tokens,
        total_output_tokens := st.total_output_tokens + usage.output_tokens,
        total_cache_read := st.total_cache_read + usage.cache_read_input_tokens,
        total_cache_create := st.total_cache_create + usage.cache_creation_input_tokens }
      let st :=
        if st.in_plan_mode then
          { st with planning_tokens := st.planning_tokens + msg_tokens,
                    planning_messages := st.planning_messages + 1 }
        else
          { st with execution_tokens := st.execution_tokens + msg_tokens,
                    execution_messages := st.execution_messages + 1 }
      let pr := content.foldl (assistantPartStep timestamp) (st, "")
      if pr.2 = "" then pr.1
      else
        { pr.1 with messages := pr.1.messages ++
          [({ role := "assistant", content := pr.2, timestamp := timestamp,
              model := model, input_tokens := some usage.input_tokens,
              output_tokens := some usage.output_tokens } : PMessage)] }
    | .system _ subtype _ _ _ _ =>
      if subtype == some "api_error" then { st with errors := st.errors + 1 } else st
    | .otherEvent _ => st
  if timestamp.isSome then { st with last_timestamp := timestamp } else st

/-- One raw line of the loop: empty and undecodable lines are skipped. -/
def lineStep (st : ParserState) (l : Line) : ParserState :=
  match l with
  | .empty => st
  | .malformed => st
  | .ok e => parserStep st e

structure PlanModeStats where
  planning_time_seconds : Int
  execution_time_seconds : Int
  planning_tokens : Nat
  execution_tokens : Nat
  planning_messages : Nat
  execution_messages : Nat
  plan_mode_entries : Nat
deriving Repr, DecidableEq

structure SessionDetail where
  messages : List PMessage
  total_input_tokens : Nat
  total_output_tokens : Nat
  total_cache_read_tokens : Nat
  total_cache_creation_tokens : Nat
  tool_call_count : Nat
  error_count : Nat
  plan_mode_stats : PlanModeStats
deriving Repr, DecidableEq

/-- `LogParser._parse_session_file`: fold the loop body over the file's
lines, then derive execution time as total session wall time minus planning
time, floored at zero (zero when the file carried no timestamp at all). -/
def parse_session_file (ls : List Line) : SessionDetail :=
  let st := ls.foldl lineStep ({} : ParserState)
  let execution_time_seconds : Int :=
    match st.first_timestamp, st.last_timestamp with
    | some f, some l => max 0 ((l - f) - st.planning_time_seconds)
    | _, _ => 0
  { messages := st.messages,
    total_input_tokens := st.total_input_tokens,
    total_output_tokens := st.total_output_tokens,
    total_cache_read_tokens := st.total_cache_read,
    total_cache_creation_tokens := st.total_cache_create,
    tool_call_count := st.tool_calls.length,
    error_count := st.errors,
    plan_mode_stats :=
      { planning_time_seconds := st.planning_time_seconds,
        execution_time_seconds := execution_time_seconds,
        planning_tokens := st.planning_tokens,
        execution_tokens := st.execution_tokens,
        planning_messages := st.planning_messages,
        execution_messages := st.execution_messages,
        plan_mode_entries := st.plan_mode_entries } }

/-! ## Plan-mode spans, following the specification's words

The specification describes plan mode as a state machine whose completed
spans are intervals from an entry trigger's timestamp to the matching
`ExitPlanMode` timestamp; total planning time is the sum of the completed
spans' lengths and an open span contributes zero.  The definitions below
build that span list; the C3 theorem proves the parser's incremental
accumulator equal to the sum over this list. -/

inductive PlanAct where
  | enter
  | leave
deriving Repr, DecidableEq

/-- Entry trigger carried by one user-event `tool_result` part. -/
def userPartPlanAct (tur : Option ToolUseResultPayload) : UserPart → Option PlanAct
  | .tool_result _ _ _ =>
    match tur with
    | some r =>
      if strHas (r.filePath.getD "") "/.claude/plans/" && r.rtype == some "create" then
        some .enter
      else none
    | none => none
  | .otherPart => none

/-- Trigger carried by one assistant content part. -/
def contentPartPlanAct : ContentPart → Option PlanAct
  | .tool_use _ name input =>
    let tool_name := name.getD ""
    if tool_name = "Write" then
      if strHas (input.file_path.getD "") "/.claude/plans/" then some .enter else none
    else if tool_name = "ExitPlanMode" then some .leave
    else none
  | _ => none

/-- Plan-mode triggers of one event, in part order. -/
def eventPlanActs : Event → List PlanAct
  | .user _ (.parts ps) tur => ps.filterMap (userPartPlanAct tur)
  | .assistant _ _ _ content => content.filterMap contentPartPlanAct
  | _ => []

structure SpanState where
  inPlan : Bool := false
  start : Option Int := none
  entries : Nat := 0
  spans : List (Int × Int) := []
deriving Repr, DecidableEq

/-- Span-machine transition for one trigger observed at a given timestamp. -/
def planActStep (timestamp : Option Int) (s : SpanState) : PlanAct → SpanState
  | .enter =>
    if !s.inPlan then
      { s with inPlan := true, start := timestamp, entries := s.entries + 1 }
    else s
  | .leave =>
    match s.inPlan, s.start, timestamp with
    | true, some a, some b =>
      { s with spans := s.spans ++ [(a, b)], inPlan := false, start := none }
    | _, _, _ => s

def spanStep (s : SpanState) (e : Event) : SpanState :=
  (eventPlanActs e).foldl (planActStep e.ts) s

/-- Completed plan-mode spans of an event stream. -/
def planSpans (es : List Event) : List (Int × Int) :=
  (es.foldl spanStep ({} : SpanState)).spans

/-- Number of entries into plan mode (an open final span counts). -/
def planEntries (es : List Event) : Nat :=
  (es.foldl spanStep ({} : SpanState)).entries

/-- Sum of span lengths. -/
def spanSum (spans : List (Int × Int)) : Int :=
  (spans.map fun p => p.2 - p.1).sum

/-! ## Ingestion (`importer.py`, `LogImporter._import_session` and friends) -/

/-- Python `x or "unknown"` on an optional string. -/
def orUnknown : Option String → String
  | some s => if s = "" then "unknown" else s
  | none => "unknown"

/-- Python truthiness of an optional string. -/
def truthyStr : Option String → Bool
  | some s => if s = "" then false else true
  | none => false

/-- A persisted MessageRecord (sans its generated primary key). -/
structure MessageRec where
  role : String
  content : String
  timestamp : Option Int
  model : Option String := none
  input_tokens : Option Nat := none
  output_tokens : Option Nat := none
  cache_read_tokens : Option Nat := none
  cache_creation_tokens : Option Nat := none
  cumulative_context_tokens : Option Nat := none
  message_index : Nat := 0
deriving Repr, DecidableEq

/-- A persisted ToolUsageRecord. -/
structure ToolUsageRec where
  tool_name : String
  tool_use_id : Option String
  timestamp : Option Int
  category : String
  mcp_server : Option String
  skill_name : Option String
  subagent_type : Option String
  is_error : Bool := false
  duration_ms : Option Int := none
deriving Repr, DecidableEq

/-- A persisted ErrorEventRecord. -/
structure ErrorRec where
  error_type : String
  error_message : Option String
  timestamp : Option Int
  retry_attempt : Option Int
  retry_in_ms : Option Int
deriving Repr, DecidableEq

/-- A persisted SubAgentUsageRecord; the completion fields start unset. -/
structure SubagentRec where
  subagent_type : String
  description : String
  prompt_preview : String
  model : Option String
  timestamp : Option Int
  tool_use_id : Option String
  agent_id : Option String := none
  status : Option String := none
  duration_ms : Option Int := none
  total_tokens : Option Int := none
  total_tool_use_count : Option Int := none
deriving Repr, DecidableEq

/-- Apply a completion payload to a pending sub-agent record in place
(each completion plainly overwrites all five completion fields). -/
def enrichSubagent (r : SubagentRec) (tur : ToolUseResultPayload) : SubagentRec :=
  { r with agent_id := tur.agentId,
           status := some (tur.status.getD "completed"),
           duration_ms := tur.totalDurationMs,
           total_tokens := tur.totalTokens,
           total_tool_use_count := tur.totalToolUseCount }

/-- Loop state of `_import_session`.  `pending` maps a Task invocation's
correlation id to the index of its record in `subagents` (most recent
binding first, mirroring dict overwrite). -/
structure ImportState where
  messages : List MessageRec := []
  tool_usages : List ToolUsageRec := []
  errors : List ErrorRec := []
  subagents : List SubagentRec := []
  pending : List (String × Nat) := []
  total_input : Nat := 0
  total_output : Nat := 0
  total_cache_read : Nat := 0
  total_cache_create : Nat := 0
  first_prompt : Option String := none
  first_timestamp : Option Int := none
  last_timestamp : Option Int := none
  message_index : Nat := 0
  cumulative_tokens : Nat := 0
  subagent_count : Nat := 0
  skill_count : Nat := 0
deriving Repr, DecidableEq

/-- Tool-result item of a user event: a Task completion (side-channel
payload carrying a truthy agent id) whose correlation id matches a pending
sub-agent enriches that record in place. -/
def importUserItemStep (tur : Option ToolUseResultPayload)
    (st : ImportState) (item : UserPart) : ImportState :=
  match item with
  | .tool_result tool_use_id _ _ =>
    match tur with
    | some r =>
      if truthyStr r.agentId then
        match tool_use_id with
        | some c =>
          if c = "" then st
          else
            match st.pending.lookup c with
            | some idx =>
              match st.subagents.get? idx with
              | some rec => { st with subagents := st.subagents.set idx (enrichSubagent rec r) }
              | none => st
            | none => st
        | none => st
      else st
    | none => st
  | .otherPart => st

/-- Per-part processing of an assistant event in `_import_session`:
accumulate text, record the classified tool usage, and spawn a sub-agent
record for agent-classified invocations. -/
def importPartStep (timestamp : Option Int) :
    ImportState × String → ContentPart → ImportState × String
  | (st, text), .text s => (st, text ++ s)
  | (st, text), .tool_use id name input =>
    let tool_name := name.getD "unknown"
    let classification := classify_tool tool_name input
    let tool_usage : ToolUsageRec :=
      { tool_name := tool_name, tool_use_id := id, timestamp := timestamp,
        category := classification.category,
        mcp_server := classification.mcp_server,
        skill_name := classification.skill_name,
        subagent_type := classification.subagent_type }
    let st := { st with tool_usages := st.tool_usages ++ [tool_usage] }
    let st :=
      if classification.category = "skill" then
        { st with skill_count := st.skill_count + 1 }
      else st
    if classification.category = "agent" then
      let subagent : SubagentRec :=
        { subagent_type := orUnknown classification.subagent_type,
          description := strTake (input.description.getD "") 512,
          prompt_preview := strTake (input.prompt.getD "") 500,
          model := input.model, timestamp := timestamp, tool_use_id := id }
      let idx := st.subagents.length
      let st := { st with subagents := st.subagents ++ [subagent],
                          subagent_count := st.subagent_count + 1 }
      match id with
      | some c =>
        if c = "" then (st, text)
        else ({ st with pending := (c, idx) :: st.pending }, text)
      | none => (st, text)
    else (st, text)
  | (st, text), .otherPart => (st, text)

/-- One decoded event of `_import_session`'s loop body. -/
def importStep (st : ImportState) (e : Event) : ImportState :=
  let timestamp := e.ts
  let st :=
    if timestamp.isSome then
      let st :=
        if st.first_timestamp.isNone then { st with first_timestamp := timestamp } else st
      { st with last_timestamp := timestamp }
    else st
  match e with
  | .user _ content tur =>
    match content with
    | .str s =>
      let st :=
        if st.first_prompt.isNone && !(s = "") then
          { st with first_prompt := some (strTake s 500) }
        else st
      { st with
        messages := st.messages ++
          [({ role := "user", content := strTake s 10000, timestamp := timestamp,
              message_index := st.message_index } : MessageRec)],
        message_index := st.message_index + 1 }
    | .parts items => items.foldl (importUserItemStep tur) st
    | .otherContent => st
  | .assistant _ model usage content =>
    let input_tokens := usage.input_tokens
    let output_tokens := usage.output_tokens
    let cache_read := usage.cache_read_input_tokens
    let cache_create := usage.cache_creation_input_tokens
    let st := { st with
      total_input := st.total_input + input_tokens,
      total_output := st.total_output + output_tokens,
      total_cache_read := st.total_cache_read + cache_read,
      total_cache_create := st.total_cache_create + cache_create,
      cumulative_tokens := input_tokens + cache_read }
    let pr := content.foldl (importPartStep timestamp) (st, "")
    if pr.2 = "" then pr.1
    else
      { pr.1 with
        messages := pr.1.messages ++
          [({ role := "assistant", content := strTake pr.2 10000, timestamp := timestamp,
              model := model, input_tokens := some input_tokens,
              output_tokens := some output_tokens, cache_read_tokens := some cache_read,
              cache_creation_tokens := some cache_create,
              cumulative_context_tokens := some pr.1.cumulative_tokens,
              message_index := pr.1.message_index } : MessageRec)],
        message_index := pr.1.message_index + 1 }
  | .system _ subtype errType errMessage retryAttempt retryInMs =>
    if subtype == some "api_error" then
      { st with errors := st.errors ++
        [({ error_type := errType.getD "unknown", error_message := errMessage,
            timestamp := timestamp, retry_attempt := retryAttempt,
            retry_in_ms :=
              match retryInMs with
              | some v => if v = 0 then none else some v
              | none => none } : ErrorRec)] }
    else st
  | .otherEvent _ => st

/-- One raw line of `_import_session`'s loop: undecodable lines skipped. -/
def importLineStep (st : ImportState) (l : Line) : ImportState :=
  match l with
  | .empty => st
  | .malformed => st
  | .ok e => importStep st e

/-- The in-memory reconstruction pass of `_import_session`. -/
def import_parse (ls : List Line) : ImportState :=
  ls.foldl importLineStep ({} : ImportState)

/-! ## Raw lines and the real exception behaviour of the scan loops -/

/-- A raw physical line of a session file, before any decoding attempt.
`notJson` is a line `json.loads` rejects with `json.JSONDecodeError` — the
only exception either scan loop catches.  `nonObject` is a line that parses
as valid JSON but not as an object (a list, string, number, boolean or
null): `json.loads` succeeds, and the subsequent `event.get(...)` raises an
uncaught `AttributeError` that aborts the whole scan. -/
inductive RawLine where
  | empty
  | notJson
  | nonObject
  | obj (e : Event)
deriving Repr, DecidableEq

/-- The `Line` a surviving raw line decodes to.  (`nonObject` never
survives the scan; its value here is irrelevant and only referenced under
a no-`nonObject` hypothesis.) -/
def lineOfRaw : RawLine → Line
  | .empty => .empty
  | .notJson => .malformed
  | .nonObject => .malformed
  | .obj e => .ok e

/-- The read-side scan loop of `_parse_session_file` over raw lines, with
the real exception behaviour: empty lines and `JSONDecodeError` lines are
skipped and the loop continues, but a valid-JSON non-object line raises an
uncaught `AttributeError` at `event.get`, aborting the scan of the file. -/
def parseLinesE : ParserState → List RawLine → Except Unit ParserState
  | st, [] => .ok st
  | st, .empty :: rest => parseLinesE st rest
  | st, .notJson :: rest => parseLinesE st rest
  | _, .nonObject :: _ => .error ()
  | st, .obj e :: rest => parseLinesE (parserStep st e) rest

/-- The importer scan loop of `_import_session` over raw lines: the `try`
at `json.loads` likewise catches only `json.JSONDecodeError`, and
`event.get("type")` sits outside it, so a valid-JSON non-object line
aborts this loop too. -/
def importLinesE : ImportState → List RawLine → Except Unit ImportState
  | st, [] => .ok st
  | st, .empty :: rest => importLinesE st rest
  | st, .notJson :: rest => importLinesE st rest
  | _, .nonObject :: _ => .error ()
  | st, .obj e :: rest => importLinesE (importStep st e) rest

/-! ## Persistent store -/

/-- A persisted SessionAggregate row.  `id` is the generated numeric
identity; `session_id` is the stable string identifier.  `created_at` is an
integer timestamp (seconds). -/
structure SessionRow where
  id : Nat
  session_id : String
  first_prompt : Option String
  created_at : Int
  modified_at : Option Int
  message_count : Nat
  total_input_tokens : Nat
  total_output_tokens : Nat
  total_cache_read_tokens : Nat
  total_cache_creation_tokens : Nat
  tool_call_count : Nat
  error_count : Nat
  duration_ms : Option Int
  subagent_count : Nat
  skill_count : Nat
deriving Repr, DecidableEq

structure DailyStatsRow where
  date : Int
  project_path : String
  session_count : Nat
  message_count : Nat
  input_tokens : Nat
  output_tokens : Nat
  cache_read_tokens : Nat
  cache_creation_tokens : Nat
  tool_call_count : Nat
  error_count : Nat
deriving Repr, DecidableEq

structure ToolStatsRow where
  date : Int
  tool_name : String
  call_count : Nat
  error_count : Nat
  total_duration_ms : Int
deriving Repr, DecidableEq

structure ErrorStatsRow where
  date : Int
  error_type : String
  count : Nat
deriving Repr, DecidableEq

/-- The relational store.  Child rows carry the numeric id of their owning
session row.  The session table's primary key is a plain SQLite `INTEGER
PRIMARY KEY` (no `AUTOINCREMENT`), so an insert receives one plus the
maximum rowid currently in the table — a just-deleted maximum id is
*reused* (see `maxSessionId`/`freshIdOf`). -/
structure Store where
  sessions : List SessionRow := []
  messages : List (Nat × MessageRec) := []
  tool_usages : List (Nat × ToolUsageRec) := []
  errors : List (Nat × ErrorRec) := []
  subagents : List (Nat × SubagentRec) := []
  daily_stats : List DailyStatsRow := []
  tool_stats : List ToolStatsRow := []
  error_stats : List ErrorStatsRow := []
deriving Repr, DecidableEq

def childMessages (db : Store) (id : Nat) : List MessageRec :=
  (db.messages.filter fun p => p.1 = id).map Prod.snd

def childTools (db : Store) (id : Nat) : List ToolUsageRec :=
  (db.tool_usages.filter fun p => p.1 = id).map Prod.snd

def childErrors (db : Store) (id : Nat) : List ErrorRec :=
  (db.errors.filter fun p => p.1 = id).map Prod.snd

def childSubagents (db : Store) (id : Nat) : List SubagentRec :=
  (db.subagents.filter fun p => p.1 = id).map Prod.snd

/-- Maximum numeric id among a list of session rows, `0` when empty
(SQLite rowids start at 1, so the next insert receives this plus one). -/
def maxSessionId (rows : List SessionRow) : Nat :=
  rows.foldl (fun m r => max m r.id) 0

/-- The numeric identity SQLite assigns to the row `_import_session`
inserts: the bulk delete of the rows carrying `session_id` has already run
in the same transaction, so the allocation is one plus the maximum id of
the *remaining* session rows.  When the deleted session held the maximum
id, that same id is handed back to the fresh row. -/
def freshIdOf (db : Store) (session_id : String) : Nat :=
  maxSessionId (db.sessions.filter fun r => r.session_id ≠ session_id) + 1

/-- No persisted child row carries the given numeric session id.  This is
what a *first* import of a fresh identifier into an orphan-free store
satisfies; a force re-import of the maximum-id session violates it. -/
def noChildrenAt (db : Store) (id : Nat) : Bool :=
  (db.messages.all fun p => p.1 ≠ id) &&
  (db.tool_usages.all fun p => p.1 ≠ id) &&
  (db.errors.all fun p => p.1 ≠ id) &&
  (db.subagents.all fun p => p.1 ≠ id)

/-- The session row `_import_session` builds from the reconstructed state:
counters are derived purely from the lengths of the collected child lists,
duration from the first and last observed timestamps. -/
def mkSessionRow (now : Int) (id : Nat) (session_id : String) (st : ImportState) : SessionRow :=
  { id := id, session_id := session_id, first_prompt := st.first_prompt,
    created_at := st.first_timestamp.getD now,
    modified_at := st.last_timestamp,
    message_count := st.messages.length,
    total_input_tokens := st.total_input,
    total_output_tokens := st.total_output,
    total_cache_read_tokens := st.total_cache_read,
    total_cache_creation_tokens := st.total_cache_create,
    tool_call_count := st.tool_usages.length,
    error_count := st.errors.length,
    duration_ms :=
      match st.first_timestamp, st.last_timestamp with
      | some f, some l => some ((l - f) * 1000)
      | _, _ => none,
    subagent_count := st.subagent_count,
    skill_count := st.skill_count }

/-- `LogImporter._import_session`: reconstruct the session from the file's
lines, bulk-delete any session row with the same string identifier (this is
the `db.query(Session).filter(...)` delete: it removes session rows only —
no ORM cascade runs, so existing child rows stay in their tables), then
append the fresh session row together with its children.  The fresh row's
numeric identity is the SQLite rowid allocation `freshIdOf`: one plus the
maximum id of the remaining session rows, which *reuses* the id of a
just-deleted maximum-id session — any child rows left behind under that id
become attached to the fresh row.  `now` models `datetime.utcnow()`, used
when the file carried no timestamp. -/
def import_session (now : Int) (db : Store) (session_id : String) (ls : List Line) : Store :=
  let st := import_parse ls
  let sid := freshIdOf db session_id
  let row : SessionRow := mkSessionRow now sid session_id st
  { db with
    sessions := (db.sessions.filter fun r => r.session_id ≠ session_id) ++ [row],
    messages := db.messages ++ st.messages.map fun m => (sid, m),
    tool_usages := db.tool_usages ++ st.tool_usages.map fun m => (sid, m),
    errors := db.errors ++ st.errors.map fun m => (sid, m),
    subagents := db.subagents ++ st.subagents.map fun m => (sid, m) }

/-- `LogImporter._maybe_import_session`: skip when the identifier already
exists and the force flag is off. -/
def maybe_import_session (now : Int) (db : Store) (ls : List Line)
    (session_id : String) (force : Bool) : Store :=
  if !force && (db.sessions.any fun r => r.session_id = session_id) then db
  else import_session now db session_id ls

/-! ## Roll-up aggregator (`importer.py`, `_update_daily_stats`) -/

/-- Calendar day of an integer timestamp (models `created_at.date()`). -/
def dateOf (t : Int) : Int := t / 86400

/-- Python dict accumulation: create the zero entry when the key is absent
(appended, preserving insertion order), then mutate it in place. -/
def bumpAssoc {κ α : Type} [DecidableEq κ] (m : List (κ × α)) (k : κ) (dflt : α)
    (f : α → α) : List (κ × α) :=
  if m.any fun p => p.1 = k then
    m.map fun p => if p.1 = k then (p.1, f p.2) else p
  else m ++ [(k, f dflt)]

structure DailyAgg where
  session_count : Nat := 0
  message_count : Nat := 0
  input_tokens : Nat := 0
  output_tokens : Nat := 0
  cache_read_tokens : Nat := 0
  cache_creation_tokens : Nat := 0
  tool_call_count : Nat := 0
  error_count : Nat := 0
deriving Repr, DecidableEq

structure ToolAgg where
  count : Nat := 0
  errors : Nat := 0
  duration : Int := 0
deriving Repr, DecidableEq

/-- Accumulators of `_update_daily_stats`'s single loop over all sessions. -/
structure StatsAcc where
  daily : List (Int × DailyAgg) := []
  tool : List ((Int × String) × ToolAgg) := []
  err : List ((Int × String) × Nat) := []
deriving Repr, DecidableEq

/-- Per-session accumulation into a daily bucket. -/
def dailyAdd (s : SessionRow) (a : DailyAgg) : DailyAgg :=
  { a with
    session_count := a.session_count + 1,
    message_count := a.message_count + s.message_count,
    input_tokens := a.input_tokens + s.total_input_tokens,
    output_tokens := a.output_tokens + s.total_output_tokens,
    cache_read_tokens := a.cache_read_tokens + s.total_cache_read_tokens,
    cache_creation_tokens := a.cache_creation_tokens + s.total_cache_creation_tokens,
    tool_call_count := a.tool_call_count + s.tool_call_count,
    error_count := a.error_count + s.error_count }

/-- Loop body of `_update_daily_stats` for one persisted session: bump the
daily bucket, then one tool bucket per owned tool usage and one error
bucket per owned error event. -/
def statsStep (db : Store) (acc : StatsAcc) (s : SessionRow) : StatsAcc :=
  let date_key := dateOf s.created_at
  let daily := bumpAssoc acc.daily date_key {} (dailyAdd s)
  let tool := (childTools db s.id).foldl
    (fun m t => bumpAssoc m (date_key, t.tool_name) {} fun a =>
      { count := a.count + 1,
        errors := a.errors + (if t.is_error then 1 else 0),
        duration := a.duration +
          (match t.duration_ms with
           | some d => if d = 0 then 0 else d
           | none => 0) })
    acc.tool
  let err := (childErrors db s.id).foldl
    (fun m e => bumpAssoc m (date_key, e.error_type) 0 fun n => n + 1)
    acc.err
  { daily := daily, tool := tool, err := err }

/-- `LogImporter._update_daily_stats`: scan all persisted sessions, then
discard the prior roll-up rows and insert the recomputed ones. -/
def update_daily_stats (db : Store) : Store :=
  let acc := db.sessions.foldl (statsStep db) ({} : StatsAcc)
  { db with
    daily_stats := acc.daily.map fun p =>
      { date := p.1, project_path := "*",
        session_count := p.2.session_count,
        message_count := p.2.message_count,
        input_tokens := p.2.input_tokens,
        output_tokens := p.2.output_tokens,
        cache_read_tokens := p.2.cache_read_tokens,
        cache_creation_tokens := p.2.cache_creation_tokens,
        tool_call_count := p.2.tool_call_count,
        error_count := p.2.error_count },
    tool_stats := acc.tool.map fun p =>
      { date := p.1.1, tool_name := p.1.2,
        call_count := p.2.count, error_count := p.2.errors,
        total_duration_ms := p.2.duration },
    error_stats := acc.err.map fun p =>
      { date := p.1.1, error_type := p.1.2, count := p.2 } }

/-! ## Error classifier (`error_analyzer.py`) -/

/-- `categorize_error`: the ordered substring-test chain over the
lower-cased error text, with `"other"` as the fallback. -/
def categorize_error (error_message : String) : String :=
  let err := lowerStr error_message
  if strHas err "does not exist" || strHas err "no such file" ||
     strHas err "path does not exist" then "file_not_found"
  else if strHas err "eisdir" then "directory_instead_of_file"
  else if strHas err "no such tool" then "tool_not_available"
  else if strHas err "user doesn\x27t want" || strHas err "tool use was rejected" then
    "user_rejected"
  else if strHas err "old_string" && strHas err "not found" then "edit_string_not_found"
  else if strHas err "found" && strHas err "matches" && strHas err "replace_all" then
    "edit_multiple_matches"
  else if strHas err "file has not been read yet" then "file_not_read_first"
  else if strHas err "exit code" then "command_failed"
  else if strHas err "status code 404" || strHas err "status code 403" ||
          strHas err "status code 429" || strHas err "request failed" then "http_error"
  else if strHas err "exceeds maximum" && strHas err "tokens" then "file_too_large"
  else if strHas err "error connecting to database" || strHas err "failed to connect" then
    "database_connection"
  else if strHas err "no workspace set" then "mcp_workspace_not_set"
  else if strHas err "interrupted by user" then "task_interrupted"
  else if strHas err "permission denied" then "permission_denied"
  else if strHas err "inputvalidationerror" || strHas err "unrecognized_key" ||
          strHas err "unrecognized key" then "invalid_input"
  else "other"

/-- The classifier's taxonomy as an ordered predicate list, following the
specification's description (first-match-wins, `"other"` fallback).  The C7
theorem proves `categorize_error` equal to scanning this list. -/
def CATEGORY_RULES : List (String × (String → Bool)) :=
  [("file_not_found", fun e => strHas e "does not exist" || strHas e "no such file" ||
      strHas e "path does not exist"),
   ("directory_instead_of_file", fun e => strHas e "eisdir"),
   ("tool_not_available", fun e => strHas e "no such tool"),
   ("user_rejected", fun e => strHas e "user doesn\x27t want" ||
      strHas e "tool use was rejected"),
   ("edit_string_not_found", fun e => strHas e "old_string" && strHas e "not found"),
   ("edit_multiple_matches", fun e => strHas e "found" && strHas e "matches" &&
      strHas e "replace_all"),
   ("file_not_read_first", fun e => strHas e "file has not been read yet"),
   ("command_failed", fun e => strHas e "exit code"),
   ("http_error", fun e => strHas e "status code 404" || strHas e "status code 403" ||
      strHas e "status code 429" || strHas e "request failed"),
   ("file_too_large", fun e => strHas e "exceeds maximum" && strHas e "tokens"),
   ("database_connection", fun e => strHas e "error connecting to database" ||
      strHas e "failed to connect"),
   ("mcp_workspace_not_set", fun e => strHas e "no workspace set"),
   ("task_interrupted", fun e => strHas e "interrupted by user"),
   ("permission_denied", fun e => strHas e "permission denied"),
   ("invalid_input", fun e => strHas e "inputvalidationerror" ||
      strHas e "unrecognized_key" || strHas e "unrecognized key")]

/-- First-match-wins scan of the ordered rule list. -/
def firstMatchCategory (error_message : String) : String :=
  let err := lowerStr error_message
  match CATEGORY_RULES.find? fun r => r.2 err with
  | some r => r.1
  | none => "other"

/-- A read-side ToolError as reconstructed by `_parse_session_errors`.
`tool_name` is optional because a matched tool-use event may itself carry
no name (the stored `part.get("name")` can be null). -/
structure ToolErrorRec where
  tool_name : Option String
  error_message : String
  error_category : String
  timestamp : Option Int
  session_id : String
  project_path : String
  tool_input : Option ToolInput
  subcategory : Option String
deriving Repr, DecidableEq

/-- `get_subcategory`: detailed sub-categorisation within `command_failed`
(exit-code regex, command-name sniffing), `http_error` (status bucket) and
`tool_not_available` (tool-name regex). -/
def get_subcategory (error : ToolErrorRec) : Option String :=
  let err := lowerStr error.error_message
  let tool_input := error.tool_input.getD {}
  let command := tool_input.command.getD ""
  if error.error_category = "command_failed" then
    let exit_code : Option (List Char) := reSearchLit "exit code ".data Char.isDigit err.data
    let first_word : List Char := (pyWords command).headD []
    if strHas err "no such file or directory: .venv" then some "venv_not_found"
    else if strHas err "is not running" then some "service_not_running"
    else if strHas err "command not found" || exit_code == some "127".data then
      some "command_not_found"
    else if strHas err "traceback" ||
            (strHas err "error:" && strHas (lowerStr command) "python") then
      some "python_error"
    else if strHas err "error" &&
            (containsSub "npm".data first_word || containsSub "yarn".data first_word) then
      some "npm_error"
    else if first_word = "git".data then
      if exit_code == some "128".data then some "git_auth_or_branch" else some "git_error"
    else if first_word = "python".data || first_word = "python3".data ||
            strHas command ".venv/bin/python" then some "python_error"
    else if first_word = "pytest".data || first_word = "py.test".data ||
            strHas command "pytest" then some "test_failure"
    else if first_word = "docker".data || first_word = "docker-compose".data then
      some "docker_error"
    else if first_word = "npm".data || first_word = "npx".data ||
            first_word = "yarn".data || first_word = "pnpm".data then some "npm_error"
    else if first_word = "pip".data || first_word = "pip3".data then some "pip_error"
    else
      match exit_code with
      | some d => some ⟨"exit_code_".data ++ d⟩
      | none => none
  else if error.error_category = "http_error" then
    if strHas err "404" then some "404_not_found"
    else if strHas err "403" then some "403_forbidden"
    else if strHas err "429" then some "429_rate_limited"
    else if strHas err "500" || strHas err "502" || strHas err "503" then
      some "5xx_server_error"
    else none
  else if error.error_category = "tool_not_available" then
    match reSearchLit "no such tool available: ".data (fun c => !pyIsSpace c) err.data with
    | some tok => some ⟨tok⟩
    | none => none
  else none

/-- What `_parse_session_errors` stores per seen tool-use event. -/
structure ToolUseInfo where
  name : Option String
  input : ToolInput
  timestamp : Option Int
deriving Repr, DecidableEq

/-- Loop state of `_parse_session_errors`: collected errors and the map
from correlation id to seen tool-use info (most recent binding first). -/
structure ErrState where
  errors : List ToolErrorRec := []
  tool_uses : List (Option String × ToolUseInfo) := []
deriving Repr, DecidableEq

/-- Record a tool-use part of an assistant event. -/
def errAssistantPart (timestamp : Option Int) (st : ErrState) (p : ContentPart) : ErrState :=
  match p with
  | .tool_use id name input =>
    { st with tool_uses := (id, ⟨name, input, timestamp⟩) :: st.tool_uses }
  | _ => st

/-- Check one tool-result part of a user event for an error flag; an
error-flagged part always emits a ToolErrorRec, falling back to
`"unknown"`/absent fields when its correlation id was never seen. -/
def errUserPart (session_id project_path : String) (st : ErrState) (p : UserPart) : ErrState :=
  match p with
  | .tool_result tool_use_id is_error content =>
    if is_error then
      let tool_info := st.tool_uses.lookup tool_use_id
      let err : ToolErrorRec :=
        { tool_name :=
            match tool_info with
            | some i => i.name
            | none => some "unknown",
          error_message := strTake content 1000,
          error_category := categorize_error content,
          timestamp :=
            match tool_info with
            | some i => i.timestamp
            | none => none,
          session_id := session_id, project_path := project_path,
          tool_input :=
            match tool_info with
            | some i => some i.input
            | none => none,
          subcategory := none }
      let err := { err with subcategory := get_subcategory err }
      { st with errors := st.errors ++ [err] }
    else st
  | .otherPart => st

/-- One decoded event of `_parse_session_errors`'s loop body. -/
def errEventStep (session_id project_path : String) (st : ErrState) (e : Event) : ErrState :=
  match e with
  | .assistant timestamp _ _ content => content.foldl (errAssistantPart timestamp) st
  | .user _ content _ =>
    match content with
    | .parts ps => ps.foldl (errUserPart session_id project_path) st
    | _ => st
  | _ => st

/-- One raw line: undecodable lines (empty ones included — this loop does
not strip) are skipped. -/
def errLineStep (session_id project_path : String) (st : ErrState) (l : Line) : ErrState :=
  match l with
  | .ok e => errEventStep session_id project_path st e
  | _ => st

/-- `ErrorAnalyzer._parse_session_errors`. -/
def parse_session_errors (ls : List Line) (session_id project_path : String) :
    List ToolErrorRec :=
  (ls.foldl (errLineStep session_id project_path) ({} : ErrState)).errors

/-! ## Specification-side views used by the theorems -/

/-- Events the parser counts as an observed message: a user event with
string content, or an assistant event (the parser attributes every
assistant event to a plan-mode bucket, whether or not it yields text). -/
def isCountedMessageEvent : Event → Bool
  | .user _ (.str _) _ => true
  | .assistant _ _ _ _ => true
  | _ => false

/-- Concatenated text of an assistant event's text parts (the fold shape
matches the parsers' accumulation). -/
def assistantText (content : List ContentPart) : String :=
  content.foldl
    (fun t p =>
      match p with
      | .text s => t ++ s
      | _ => t)
    ""

/-- Events that make the read-side parser append a message. -/
def emitsMessage : Event → Bool
  | .user _ (.str _) _ => true
  | .assistant _ _ _ content => !(assistantText content = "")
  | _ => false

/-- Sub-agent record spawned by one assistant content part, paired with the
invocation's correlation id, following the specification: one record per
agent-classified tool invocation, created at spawn time with spawn-time
fields and all completion fields unset. -/
def spawnOfPart (timestamp : Option Int) : ContentPart → Option (SubagentRec × Option String)
  | .tool_use id name input =>
    let classification := classify_tool (name.getD "unknown") input
    if classification.category = "agent" then
      some ({ subagent_type := orUnknown classification.subagent_type,
              description := strTake (input.description.getD "") 512,
              prompt_preview := strTake (input.prompt.getD "") 500,
              model := input.model, timestamp := timestamp,
              tool_use_id := id }, id)
    else none
  | _ => none

/-- Sub-agent records spawned by one event. -/
def spawnsInEvent : Event → List (SubagentRec × Option String)
  | .assistant timestamp _ _ content => content.filterMap (spawnOfPart timestamp)
  | _ => []

/-- A completion carried by one tool-result item: the side-channel payload
must carry a truthy agent identifier and the item a truthy correlation id. -/
def compOfItem (tur : Option ToolUseResultPayload) : UserPart → Option (String × ToolUseResultPayload)
  | .tool_result (some c) _ _ =>
    match tur with
    | some r =>
      if truthyStr r.agentId && !(c = "") then some (c, r) else none
    | none => none
  | _ => none

/-- Completions carried by one event. -/
def completionsInEvent : Event → List (String × ToolUseResultPayload)
  | .user _ (.parts ps) tur => ps.filterMap (compOfItem tur)
  | _ => []

def completionsIn : List Event → List (String × ToolUseResultPayload)
  | [] => []
  | e :: rest => completionsInEvent e ++ completionsIn rest

/-- Every spawn occurrence with the events that come after it. -/
def spawnOccs : List Event → List (SubagentRec × Option String × List Event)
  | [] => []
  | e :: rest => ((spawnsInEvent e).map fun pr => (pr.1, pr.2, rest)) ++ spawnOccs rest

/-- The last completion payload for a given correlation id among a list of
events (duplicate completions plainly overwrite, so the last one wins). -/
def lastCompletionFor (c : String) (evs : List Event) : Option ToolUseResultPayload :=
  ((completionsIn evs).filterMap fun pr => if pr.1 = c then some pr.2 else none).getLast?

/-- Specification of the sub-agent record lifecycle: each spawn's record,
enriched in place by the last matching later completion if one arrives,
and left in its spawned-only state otherwise. -/
def subagentsSpec (es : List Event) : List SubagentRec :=
  (spawnOccs es).map fun occ =>
    match occ.2.1 with
    | some c =>
      if c = "" then occ.1
      else
        match lastCompletionFor c occ.2.2 with
        | some r => enrichSubagent occ.1 r
        | none => occ.1
    | none => occ.1

/-- Spawned records with ids, in order, without the suffix bookkeeping. -/
def spawnPairs : List Event → List (SubagentRec × Option String)
  | [] => []
  | e :: rest => spawnsInEvent e ++ spawnPairs rest

/-- Truthy correlation ids of a spawn list, in order. -/
def truthyIds (pairs : List (SubagentRec × Option String)) : List String :=
  pairs.filterMap fun pr =>
    match pr.2 with
    | some c => if c = "" then none else some c
    | none => none

/-- Truthy correlation ids of all spawns, in order. -/
def spawnIds (es : List Event) : List String :=
  truthyIds (spawnPairs es)

/-- Pending-map bindings created by a spawn list whose records start at
index `base` of the subagent list. -/
def pendingAdds (base : Nat) : List (SubagentRec × Option String) → List (String × Nat)
  | [] => []
  | pr :: rest =>
    (match pr.2 with
     | some c => if c = "" then [] else [(c, base)]
     | none => []) ++ pendingAdds (base + 1) rest

/-- Apply one completion to the subagent list through the pending map, the
way `_import_session` does. -/
def setEnrich (sps : List SubagentRec) (pend : List (String × Nat))
    (c : String) (r : ToolUseResultPayload) : List SubagentRec :=
  match pend.lookup c with
  | some idx =>
    match sps.get? idx with
    | some rec => sps.set idx (enrichSubagent rec r)
    | none => sps
  | none => sps

/-- Last payload for a correlation id among an ordered completion list. -/
def lastFor (c : String) (cs : List (String × ToolUseResultPayload)) :
    Option ToolUseResultPayload :=
  (cs.filterMap fun pr => if pr.1 = c then some pr.2 else none).getLast?

/-- Pointwise application of a completion batch to the spawn list: each
record with a truthy id takes the batch's last matching payload. -/
def applyComps (cs : List (String × ToolUseResultPayload))
    (pairs : List (SubagentRec × Option String)) (sps : List SubagentRec) :
    List SubagentRec :=
  (pairs.zip sps).map fun q =>
    match q.1.2 with
    | some c =>
      if c = "" then q.2
      else
        match lastFor c cs with
        | some r => enrichSubagent q.2 r
        | none => q.2
    | none => q.2

/-- Number of error-flagged tool-result parts carried by one event. -/
def errorResultCount : Event → Nat
  | .user _ (.parts ps) _ =>
    ps.countP fun p =>
      match p with
      | .tool_result _ is_error _ => is_error
      | .otherPart => false
  | _ => 0

/-- Correlation ids (with the event's null-ability preserved) of the
tool-use parts of one event, as `_parse_session_errors` tracks them. -/
def eventToolUseIds : Event → List (Option String)
  | .assistant _ _ _ content =>
    content.filterMap fun p =>
      match p with
      | .tool_use id _ _ => some id
      | _ => none
  | _ => []

/-- Correlation ids of all tool-use parts of an event stream. -/
def toolUseIdsIn : List Event → List (Option String)
  | [] => []
  | e :: rest => eventToolUseIds e ++ toolUseIdsIn rest

/-! ## Fold characterisation lemmas for the read-side parser -/

theorem planEnter_shape (ts : Option Int) (st : ParserState) : ∃ b os n,
    planEnter ts st =
      { st with in_plan_mode := b, plan_mode_start := os, plan_mode_entries := n } := by
  unfold planEnter
  split
  · exact ⟨_, _, _, rfl⟩
  · exact ⟨_, _, _, rfl⟩

theorem planLeave_shape (ts : Option Int) (st : ParserState) : ∃ b os time,
    planLeave ts st =
      { st with in_plan_mode := b, plan_mode_start := os,
                planning_time_seconds := time } := by
  unfold planLeave
  split
  · exact ⟨_, _, _, rfl⟩
  · exact ⟨_, _, _, rfl⟩

theorem userPlanStep_shape (ts : Option Int) (tur : Option ToolUseResultPayload)
    (st : ParserState) (p : UserPart) : ∃ b os n,
    userPlanStep ts tur st p =
      { st with in_plan_mode := b, plan_mode_start := os, plan_mode_entries := n } := by
  cases p with
  | tool_result a b c =>
    cases tur with
    | none => exact ⟨_, _, _, rfl⟩
    | some r =>
      simp only [userPlanStep]
      split
      · exact planEnter_shape ts st
      · exact ⟨_, _, _, rfl⟩
  | otherPart => exact ⟨_, _, _, rfl⟩

theorem userFold_shape (ts : Option Int) (tur : Option ToolUseResultPayload)
    (ps : List UserPart) : ∀ st : ParserState, ∃ b os n,
    ps.foldl (userPlanStep ts tur) st =
      { st with in_plan_mode := b, plan_mode_start := os, plan_mode_entries := n } := by
  induction ps with
  | nil => intro st; exact ⟨_, _, _, rfl⟩
  | cons p rest ih =>
    intro st
    obtain ⟨b, os, n, hb⟩ := userPlanStep_shape ts tur st p
    obtain ⟨b2, os2, n2, hb2⟩ := ih (userPlanStep ts tur st p)
    rw [List.foldl_cons, hb2, hb]
    exact ⟨b2, os2, n2, rfl⟩

theorem assistantFold_shape (ts : Option Int) (content : List ContentPart) :
    ∀ (st : ParserState) (t : String), ∃ b os n time tc,
    content.foldl (assistantPartStep ts) (st, t) =
      ({ st with in_plan_mode := b, plan_mode_start := os, plan_mode_entries := n,
                 planning_time_seconds := time, tool_calls := tc },
       content.foldl
         (fun a p => match p with | ContentPart.text s => a ++ s | _ => a) t) := by
  induction content with
  | nil => intro st t; exact ⟨_, _, _, _, _, rfl⟩
  | cons p rest ih =>
    intro st t
    cases p with
    | text s =>
      obtain ⟨b, os, n, time, tc, h⟩ := ih st (t ++ s)
      exact ⟨b, os, n, time, tc, h⟩
    | otherPart =>
      obtain ⟨b, os, n, time, tc, h⟩ := ih st t
      exact ⟨b, os, n, time, tc, h⟩
    | tool_use id name input =>
      have hstep : ∃ b os n time tc,
          assistantPartStep ts (st, t) (ContentPart.tool_use id name input) =
            ({ st with in_plan_mode := b, plan_mode_start := os, plan_mode_entries := n,
                       planning_time_seconds := time, tool_calls := tc }, t) := by
        simp only [assistantPartStep]
        split
        · split
          · obtain ⟨b, os, n, hb⟩ := planEnter_shape ts
              { st with tool_calls := st.tool_calls ++ [(name.getD "", ts)] }
            rw [hb]
            exact ⟨_, _, _, _, _, rfl⟩
          · exact ⟨_, _, _, _, _, rfl⟩
        · split
          · obtain ⟨b, os, time, hb⟩ := planLeave_shape ts
              { st with tool_calls := st.tool_calls ++ [(name.getD "", ts)] }
            rw [hb]
            exact ⟨_, _, _, _, _, rfl⟩
          · exact ⟨_, _, _, _, _, rfl⟩
      obtain ⟨b, os, n, time, tc, hb⟩ := hstep
      obtain ⟨b2, os2, n2, time2, tc2, hb2⟩ :=
        ih { st with in_plan_mode := b, plan_mode_start := os, plan_mode_entries := n,
                     planning_time_seconds := time, tool_calls := tc } t
      rw [List.foldl_cons, hb, hb2]
      exact ⟨b2, os2, n2, time2, tc2, rfl⟩



theorem userFold_proj (ts : Option Int) (tur : Option ToolUseResultPayload)
    (ps : List UserPart) (st : ParserState) :
    (ps.foldl (userPlanStep ts tur) st).messages = st.messages
    ∧ (ps.foldl (userPlanStep ts tur) st).planning_messages = st.planning_messages
    ∧ (ps.foldl (userPlanStep ts tur) st).execution_messages = st.execution_messages
    ∧ (ps.foldl (userPlanStep ts tur) st).planning_tokens = st.planning_tokens
    ∧ (ps.foldl (userPlanStep ts tur) st).execution_tokens = st.execution_tokens
    ∧ (ps.foldl (userPlanStep ts tur) st).total_input_tokens = st.total_input_tokens
    ∧ (ps.foldl (userPlanStep ts tur) st).total_output_tokens = st.total_output_tokens
    ∧ (ps.foldl (userPlanStep ts tur) st).total_cache_read = st.total_cache_read
    ∧ (ps.foldl (userPlanStep ts tur) st).total_cache_create = st.total_cache_create
    ∧ (ps.foldl (userPlanStep ts tur) st).errors = st.errors
    ∧ (ps.foldl (userPlanStep ts tur) st).tool_calls = st.tool_calls
    ∧ (ps.foldl (userPlanStep ts tur) st).first_timestamp = st.first_timestamp
    ∧ (ps.foldl (userPlanStep ts tur) st).last_timestamp = st.last_timestamp := by
  obtain ⟨b, os, n, h⟩ := userFold_shape ts tur ps st
  rw [h]
  simp

theorem assistantFold_proj (ts : Option Int) (content : List ContentPart)
    (st : ParserState) (t : String) :
    (content.foldl (assistantPartStep ts) (st, t)).1.messages = st.messages
    ∧ (content.foldl (assistantPartStep ts) (st, t)).1.planning_messages = st.planning_messages
    ∧ (content.foldl (assistantPartStep ts) (st, t)).1.execution_messages = st.execution_messages
    ∧ (content.foldl (assistantPartStep ts) (st, t)).1.planning_tokens = st.planning_tokens
    ∧ (content.foldl (assistantPartStep ts) (st, t)).1.execution_tokens = st.execution_tokens
    ∧ (content.foldl (assistantPartStep ts) (st, t)).1.total_input_tokens = st.total_input_tokens
    ∧ (content.foldl (assistantPartStep ts) (st, t)).1.total_output_tokens = st.total_output_tokens
    ∧ (content.foldl (assistantPartStep ts) (st, t)).1.total_cache_read = st.total_cache_read
    ∧ (content.foldl (assistantPartStep ts) (st, t)).1.total_cache_create = st.total_cache_create
    ∧ (content.foldl (assistantPartStep ts) (st, t)).1.errors = st.errors
    ∧ (content.foldl (assistantPartStep ts) (st, t)).1.first_timestamp = st.first_timestamp
    ∧ (content.foldl (assistantPartStep ts) (st, t)).1.last_timestamp = st.last_timestamp
    ∧ (content.foldl (assistantPartStep ts) (st, t)).2 =
        content.foldl
          (fun a p => match p with | ContentPart.text s => a ++ s | _ => a) t := by
  obtain ⟨b, os, n, time, tc, h⟩ := assistantFold_shape ts content st t
  rw [h]
  simp

theorem parserStep_messages_len (st : ParserState) (e : Event) :
    (parserStep st e).messages.length
      = st.messages.length + (if emitsMessage e then 1 else 0) := by
  cases e with
  | user ts content tur =>
    cases content with
    | str s =>
      simp only [parserStep, Event.ts, emitsMessage]
      repeat' split
      all_goals (try simp_all [userFold_proj, assistantFold_proj, assistantText])
    | parts ps =>
      simp only [parserStep, Event.ts, emitsMessage]
      repeat' split
      all_goals (try simp_all [userFold_proj, assistantFold_proj, assistantText])
    | otherContent =>
      simp only [parserStep, Event.ts, emitsMessage]
      repeat' split
      all_goals (try simp_all [userFold_proj, assistantFold_proj, assistantText])
  | assistant ts model usage content =>
    simp only [parserStep, Event.ts, emitsMessage]
    repeat' split
    all_goals (try simp_all [userFold_proj, assistantFold_proj, assistantText])
  | system ts sub a b c d =>
    simp only [parserStep, Event.ts, emitsMessage]
    repeat' split
    all_goals (try simp_all [userFold_proj, assistantFold_proj, assistantText])
  | otherEvent ts =>
    simp only [parserStep, Event.ts, emitsMessage]
    repeat' split
    all_goals (try simp_all [userFold_proj, assistantFold_proj, assistantText])

theorem parserStep_buckets (st : ParserState) (e : Event) :
    (parserStep st e).planning_messages + (parserStep st e).execution_messages
      = st.planning_messages + st.execution_messages
        + (if isCountedMessageEvent e then 1 else 0) := by
  cases e with
  | user ts content tur =>
    cases content with
    | str s =>
      simp only [parserStep, Event.ts, isCountedMessageEvent]
      repeat' split
      all_goals (try simp_all [userFold_proj, assistantFold_proj])
      all_goals omega
    | parts ps =>
      simp only [parserStep, Event.ts, isCountedMessageEvent]
      repeat' split
      all_goals (try simp_all [userFold_proj, assistantFold_proj])
    | otherContent =>
      simp only [parserStep, Event.ts, isCountedMessageEvent]
      repeat' split
      all_goals (try simp_all [userFold_proj, assistantFold_proj])
  | assistant ts model usage content =>
    simp only [parserStep, Event.ts, isCountedMessageEvent]
    repeat' split
    all_goals (try simp_all [userFold_proj, assistantFold_proj])
    all_goals omega
  | system ts sub a b c d =>
    simp only [parserStep, Event.ts, isCountedMessageEvent]
    repeat' split
    all_goals (try simp_all [userFold_proj, assistantFold_proj])
  | otherEvent ts =>
    simp only [parserStep, Event.ts, isCountedMessageEvent]
    repeat' split
    all_goals (try simp_all [userFold_proj, assistantFold_proj])

theorem parserStep_tokens (st : ParserState) (e : Event) :
    (parserStep st e).planning_tokens + (parserStep st e).execution_tokens
        + st.total_input_tokens + st.total_output_tokens
      = st.planning_tokens + st.execution_tokens
        + (parserStep st e).total_input_tokens + (parserStep st e).total_output_tokens := by
  cases e with
  | user ts content tur =>
    cases content with
    | str s =>
      simp only [parserStep, Event.ts]
      repeat' split
      all_goals (try simp_all [userFold_proj, assistantFold_proj])
    | parts ps =>
      simp only [parserStep, Event.ts]
      repeat' split
      all_goals (try simp_all [userFold_proj, assistantFold_proj])
    | otherContent =>
      simp only [parserStep, Event.ts]
      repeat' split
      all_goals (try simp_all [userFold_proj, assistantFold_proj])
  | assistant ts model usage content =>
    simp only [parserStep, Event.ts]
    repeat' split
    all_goals (try simp_all [userFold_proj, assistantFold_proj])
    all_goals omega
  | system ts sub a b c d =>
    simp only [parserStep, Event.ts]
    repeat' split
    all_goals (try simp_all [userFold_proj, assistantFold_proj])
  | otherEvent ts =>
    simp only [parserStep, Event.ts]
    repeat' split
    all_goals (try simp_all [userFold_proj, assistantFold_proj])

theorem parserStep_first (st : ParserState) (e : Event) :
    (parserStep st e).first_timestamp
      = if (e.ts).isSome && st.first_timestamp.isNone then e.ts
        else st.first_timestamp := by
  cases e with
  | user ts content tur =>
    cases content with
    | str s =>
      simp only [parserStep, Event.ts]
      repeat' split
      all_goals (try simp_all [userFold_proj, assistantFold_proj])
    | parts ps =>
      simp only [parserStep, Event.ts]
      repeat' split
      all_goals (try simp_all [userFold_proj, assistantFold_proj])
    | otherContent =>
      simp only [parserStep, Event.ts]
      repeat' split
      all_goals (try simp_all [userFold_proj, assistantFold_proj])
  | assistant ts model usage content =>
    simp only [parserStep, Event.ts]
    repeat' split
    all_goals (try simp_all [userFold_proj, assistantFold_proj])
  | system ts sub a b c d =>
    simp only [parserStep, Event.ts]
    repeat' split
    all_goals (try simp_all [userFold_proj, assistantFold_proj])
  | otherEvent ts =>
    simp only [parserStep, Event.ts]
    repeat' split
    all_goals (try simp_all [userFold_proj, assistantFold_proj])

theorem parserStep_last (st : ParserState) (e : Event) :
    (parserStep st e).last_timestamp
      = if (e.ts).isSome then e.ts else st.last_timestamp := by
  cases e with
  | user ts content tur =>
    cases content with
    | str s =>
      simp only [parserStep, Event.ts]
      repeat' split
      all_goals (try simp_all [userFold_proj, assistantFold_proj])
    | parts ps =>
      simp only [parserStep, Event.ts]
      repeat' split
      all_goals (try simp_all [userFold_proj, assistantFold_proj])
    | otherContent =>
      simp only [parserStep, Event.ts]
      repeat' split
      all_goals (try simp_all [userFold_proj, assistantFold_proj])
  | assistant ts model usage content =>
    simp only [parserStep, Event.ts]
    repeat' split
    all_goals (try simp_all [userFold_proj, assistantFold_proj])
  | system ts sub a b c d =>
    simp only [parserStep, Event.ts]
    repeat' split
    all_goals (try simp_all [userFold_proj, assistantFold_proj])
  | otherEvent ts =>
    simp only [parserStep, Event.ts]
    repeat' split
    all_goals (try simp_all [userFold_proj, assistantFold_proj])

theorem parserRun_messages_len (es : List Event) (st : ParserState) :
    (es.foldl parserStep st).messages.length
      = st.messages.length + es.countP emitsMessage := by
  induction es generalizing st with
  | nil => simp
  | cons e rest ih =>
    rw [List.foldl_cons, ih, parserStep_messages_len]
    by_cases he : emitsMessage e <;> simp [he, List.countP_cons] <;> omega

theorem parserRun_buckets (es : List Event) (st : ParserState) :
    (es.foldl parserStep st).planning_messages + (es.foldl parserStep st).execution_messages
      = st.planning_messages + st.execution_messages + es.countP isCountedMessageEvent := by
  induction es generalizing st with
  | nil => simp
  | cons e rest ih =>
    rw [List.foldl_cons, ih, parserStep_buckets]
    by_cases he : isCountedMessageEvent e <;> simp [he, List.countP_cons] <;> omega

theorem parserRun_tokens (es : List Event) (st : ParserState) :
    (es.foldl parserStep st).planning_tokens + (es.foldl parserStep st).execution_tokens
        + st.total_input_tokens + st.total_output_tokens
      = st.planning_tokens + st.execution_tokens
        + (es.foldl parserStep st).total_input_tokens
        + (es.foldl parserStep st).total_output_tokens := by
  induction es generalizing st with
  | nil => simp
  | cons e rest ih =>
    rw [List.foldl_cons]
    have h1 := ih (parserStep st e)
    have h2 := parserStep_tokens st e
    omega

theorem parserRun_first (es : List Event) (st : ParserState) :
    (es.foldl parserStep st).first_timestamp
      = st.first_timestamp.or (es.filterMap Event.ts).head? := by
  induction es generalizing st with
  | nil => cases hf : st.first_timestamp <;> simp [hf, Option.or]
  | cons e rest ih =>
    rw [List.foldl_cons, ih, parserStep_first]
    cases he : e.ts with
    | none => simp [List.filterMap_cons, he]
    | some t =>
      cases hf : st.first_timestamp <;>
        simp [List.filterMap_cons, he, hf, Option.or]

theorem getLast?_cons_or {α : Type} (t : α) (L : List α) :
    (t :: L).getLast? = L.getLast?.or (some t) := by
  induction L with
  | nil => simp [Option.or]
  | cons b l ih =>
    rw [List.getLast?_cons_cons]
    cases h : (b :: l).getLast? with
    | none => simp [List.getLast?_eq_none_iff] at h
    | some x => simp [Option.or]

theorem parserRun_last (es : List Event) (st : ParserState) :
    (es.foldl parserStep st).last_timestamp
      = ((es.filterMap Event.ts).getLast?).or st.last_timestamp := by
  induction es generalizing st with
  | nil => simp [Option.or]
  | cons e rest ih =>
    rw [List.foldl_cons, ih, parserStep_last]
    cases he : e.ts with
    | none => simp [List.filterMap_cons, he]
    | some t =>
      simp only [List.filterMap_cons, he, Option.isSome_some, if_true]
      rw [getLast?_cons_or]
      cases hL : (rest.filterMap Event.ts).getLast? <;> simp [Option.or]

theorem foldl_lineStep_eq (ls : List Line) (st : ParserState) :
    ls.foldl lineStep st = (decodeLines ls).foldl parserStep st := by
  induction ls generalizing st with
  | nil => rfl
  | cons l rest ih =>
    cases l <;> simp [decodeLines, lineStep, List.filterMap_cons, ih]

theorem decodeLines_filter (ls : List Line) :
    decodeLines (ls.filter Line.isOk) = decodeLines ls := by
  induction ls with
  | nil => rfl
  | cons l rest ih =>
    cases l <;>
      (simp only [decodeLines] at ih ⊢
       simp [Line.isOk, List.filterMap_cons, List.filter, ih])


/-! ## Plan-mode simulation (parser accumulator vs span machine) -/

def PlanSim (st : ParserState) (ss : SpanState) : Prop :=
  st.in_plan_mode = ss.inPlan ∧ st.plan_mode_start = ss.start ∧
  st.plan_mode_entries = ss.entries ∧ st.planning_time_seconds = spanSum ss.spans

theorem spanSum_append (xs : List (Int × Int)) (p : Int × Int) :
    spanSum (xs ++ [p]) = spanSum xs + (p.2 - p.1) := by
  simp [spanSum]

theorem sim_enter (ts : Option Int) (st : ParserState) (ss : SpanState)
    (hsim : PlanSim st ss) :
    PlanSim (planEnter ts st) (planActStep ts ss PlanAct.enter) := by
  obtain ⟨h1, h2, h3, h4⟩ := hsim
  unfold planEnter planActStep
  rw [h1]
  split <;> exact ⟨by simp [h1], by simp [h2], by simp [h3], by simp [h4]⟩

theorem sim_leave (ts : Option Int) (st : ParserState) (ss : SpanState)
    (hsim : PlanSim st ss) :
    PlanSim (planLeave ts st) (planActStep ts ss PlanAct.leave) := by
  obtain ⟨h1, h2, h3, h4⟩ := hsim
  unfold planLeave planActStep
  rw [h1, h2]
  split
  · exact ⟨rfl, rfl, h3, by rw [spanSum_append]; simp [h4]⟩
  · exact ⟨h1, h2, h3, h4⟩

def optActStep (ts : Option Int) (ss : SpanState) (a : Option PlanAct) : SpanState :=
  match a with
  | some act => planActStep ts ss act
  | none => ss

theorem sim_userPart (ts : Option Int) (tur : Option ToolUseResultPayload)
    (p : UserPart) (st : ParserState) (ss : SpanState) (hsim : PlanSim st ss) :
    PlanSim (userPlanStep ts tur st p) (optActStep ts ss (userPartPlanAct tur p)) := by
  cases p with
  | otherPart => exact hsim
  | tool_result a b c =>
    cases tur with
    | none => exact hsim
    | some r =>
      simp only [userPlanStep, userPartPlanAct]
      split
      · exact sim_enter ts st ss hsim
      · exact hsim

theorem PlanSim_tool_calls (st : ParserState) (ss : SpanState) (x)
    (hsim : PlanSim st ss) : PlanSim { st with tool_calls := x } ss := hsim

theorem sim_contentPart (ts : Option Int) (p : ContentPart)
    (st : ParserState) (t : String) (ss : SpanState) (hsim : PlanSim st ss) :
    PlanSim (assistantPartStep ts (st, t) p).1 (optActStep ts ss (contentPartPlanAct p)) := by
  cases p with
  | text s => exact hsim
  | otherPart => exact hsim
  | tool_use id name input =>
    simp only [assistantPartStep, contentPartPlanAct]
    have hsim2 : PlanSim { st with tool_calls := st.tool_calls ++ [(name.getD "", ts)] } ss := hsim
    split
    · split
      · exact sim_enter ts _ ss hsim2
      · exact hsim2
    · split
      · exact sim_leave ts _ ss hsim2
      · exact hsim2

theorem foldl_filterMap_match {α β γ : Type} (g : α → Option β) (f : γ → β → γ)
    (l : List α) (init : γ) :
    (l.filterMap g).foldl f init
      = l.foldl
          (fun c a =>
            match g a with
            | some b => f c b
            | none => c)
          init := by
  induction l generalizing init with
  | nil => rfl
  | cons a rest ih => cases hg : g a <;> simp [List.filterMap_cons, hg, ih]


theorem sim_userFold (ts : Option Int) (tur : Option ToolUseResultPayload)
    (ps : List UserPart) : ∀ (st : ParserState) (ss : SpanState), PlanSim st ss →
    PlanSim (ps.foldl (userPlanStep ts tur) st)
      ((ps.filterMap (userPartPlanAct tur)).foldl (planActStep ts) ss) := by
  induction ps with
  | nil => intro st ss h; exact h
  | cons p rest ih =>
    intro st ss h
    have h2 := sim_userPart ts tur p st ss h
    have h3 := ih (userPlanStep ts tur st p) (optActStep ts ss (userPartPlanAct tur p)) h2
    rw [List.foldl_cons]
    cases hg : userPartPlanAct tur p <;>
      simp only [hg, optActStep] at h3 <;>
      simp [List.filterMap_cons, hg, h3]

theorem sim_assistantFold (ts : Option Int) (content : List ContentPart) :
    ∀ (st : ParserState) (t : String) (ss : SpanState), PlanSim st ss →
    PlanSim (content.foldl (assistantPartStep ts) (st, t)).1
      ((content.filterMap contentPartPlanAct).foldl (planActStep ts) ss) := by
  induction content with
  | nil => intro st t ss h; exact h
  | cons p rest ih =>
    intro st t ss h
    have h2 := sim_contentPart ts p st t ss h
    have h3 := ih (assistantPartStep ts (st, t) p).1 (assistantPartStep ts (st, t) p).2
      (optActStep ts ss (contentPartPlanAct p)) h2
    rw [List.foldl_cons]
    cases hg : contentPartPlanAct p <;>
      simp only [hg, optActStep] at h3 <;>
      simp [List.filterMap_cons, hg] <;>
      simpa using h3

theorem sim_parserStep (e : Event) (st : ParserState) (ss : SpanState)
    (hsim : PlanSim st ss) :
    PlanSim (parserStep st e) (spanStep ss e) := by
  cases e with
  | user ts content tur =>
    cases content with
    | str s =>
      simp only [parserStep, Event.ts, spanStep, eventPlanActs, List.foldl_nil]
      repeat' split
      all_goals exact hsim
    | parts ps =>
      simp only [parserStep, Event.ts, spanStep, eventPlanActs]
      repeat' split
      all_goals exact sim_userFold ts tur ps _ ss hsim
    | otherContent =>
      simp only [parserStep, Event.ts, spanStep, eventPlanActs, List.foldl_nil]
      repeat' split
      all_goals exact hsim
  | assistant ts model usage content =>
    simp only [parserStep, Event.ts, spanStep, eventPlanActs]
    repeat' split
    all_goals exact sim_assistantFold ts content _ "" ss hsim
  | system ts sub a b c d =>
    simp only [parserStep, Event.ts, spanStep, eventPlanActs, List.foldl_nil]
    repeat' split
    all_goals exact hsim
  | otherEvent ts =>
    simp only [parserStep, Event.ts, spanStep, eventPlanActs, List.foldl_nil]
    repeat' split
    all_goals exact hsim

theorem sim_run (es : List Event) : ∀ (st : ParserState) (ss : SpanState),
    PlanSim st ss → PlanSim (es.foldl parserStep st) (es.foldl spanStep ss) := by
  induction es with
  | nil => intro st ss h; exact h
  | cons e rest ih =>
    intro st ss h
    rw [List.foldl_cons, List.foldl_cons]
    exact ih _ _ (sim_parserStep e st ss h)


/-! ## Theorems -/

/-- C6: tool classification is a pure, total function mapping every tool
name to exactly one of the four categories; `mcp__github__search_issues`
is mcp with server `github`, `Task` is agent, `Skill` is skill and `Bash`
is native. -/
theorem C6_classify_tool_total_and_cases :
    (∀ (name : String) (input : ToolInput),
        (classify_tool name input).category ∈ ["skill", "agent", "mcp", "native"])
    ∧ classify_tool "mcp__github__search_issues" {} =
        { category := "mcp", mcp_server := some "github",
          skill_name := none, subagent_type := none }
    ∧ (classify_tool "Task" {}).category = "agent"
    ∧ (classify_tool "Skill" {}).category = "skill"
    ∧ (classify_tool "Bash" {}).category = "native" := by
  refine ⟨?_, by decide, by decide, by decide, by decide⟩
  intro name input
  unfold classify_tool
  repeat' split
  all_goals simp

/-- First-match-wins scan of an ordered rule list, written as the
recursion the classifier's if-chain computes. -/
def scanRules : List (String × (String → Bool)) → String → String
  | [], _ => "other"
  | r :: rest, e => if r.2 e then r.1 else scanRules rest e

theorem scanRules_eq_find (rules : List (String × (String → Bool))) (e : String) :
    scanRules rules e = ((rules.find? fun r => r.2 e).map Prod.fst).getD "other" := by
  induction rules with
  | nil => rfl
  | cons r rest ih => by_cases h : r.2 e <;> simp [scanRules, List.find?, h, ih]

theorem scanRules_mem (rules : List (String × (String → Bool))) (e : String) :
    scanRules rules e ∈ rules.map Prod.fst ++ ["other"] := by
  induction rules with
  | nil => simp [scanRules]
  | cons r rest ih =>
    simp only [scanRules]
    by_cases h : r.2 e
    · simp [h]
    · simp only [h, if_false, List.map_cons, List.cons_append]
      exact List.mem_cons_of_mem _ ih

/-- C7: error classification is a total, deterministic function of the
error text (it is a plain function of the message), it agrees with a
first-match-wins scan of the ordered predicate list with `"other"` as the
fallback, its result always lies in the fixed taxonomy, and the message
`"No such tool available: foo"` classifies as `tool_not_available` with
sub-category `"foo"`. -/
theorem C7_categorize_first_match :
    (∀ msg : String, categorize_error msg = firstMatchCategory msg)
    ∧ (∀ msg : String, categorize_error msg ∈
        ["file_not_found", "directory_instead_of_file", "tool_not_available",
         "user_rejected", "edit_string_not_found", "edit_multiple_matches",
         "file_not_read_first", "command_failed", "http_error", "file_too_large",
         "database_connection", "mcp_workspace_not_set", "task_interrupted",
         "permission_denied", "invalid_input", "other"])
    ∧ categorize_error "No such tool available: foo" = "tool_not_available"
    ∧ get_subcategory
        { tool_name := some "Task",
          error_message := "No such tool available: foo",
          error_category := categorize_error "No such tool available: foo",
          timestamp := none, session_id := "s", project_path := "p",
          tool_input := none, subcategory := none } = some "foo" := by
  refine ⟨?_, ?_, by decide, by decide⟩
  · intro msg
    have h1 : categorize_error msg = scanRules CATEGORY_RULES (lowerStr msg) := rfl
    rw [h1, scanRules_eq_find]
    unfold firstMatchCategory
    rcases hf : CATEGORY_RULES.find? fun r => r.2 (lowerStr msg) with _ | r <;> simp [hf]
  · intro msg
    have h1 : categorize_error msg = scanRules CATEGORY_RULES (lowerStr msg) := rfl
    rw [h1]
    have h2 := scanRules_mem CATEGORY_RULES (lowerStr msg)
    simpa [CATEGORY_RULES] using h2




theorem parseLinesE_ok (ls : List RawLine) (h : RawLine.nonObject ∉ ls) :
    ∀ st : ParserState,
      parseLinesE st ls = Except.ok ((ls.map lineOfRaw).foldl lineStep st) := by
  induction ls with
  | nil => intro st; rfl
  | cons l rest ih =>
    have hl : l ≠ RawLine.nonObject := fun he => h (he ▸ List.mem_cons_self l rest)
    have hrest : RawLine.nonObject ∉ rest := fun hm => h (List.mem_cons_of_mem l hm)
    intro st
    cases l with
    | empty => exact ih hrest st
    | notJson => exact ih hrest st
    | nonObject => exact absurd rfl hl
    | obj e => exact ih hrest (parserStep st e)

theorem importLinesE_ok (ls : List RawLine) (h : RawLine.nonObject ∉ ls) :
    ∀ st : ImportState,
      importLinesE st ls = Except.ok ((ls.map lineOfRaw).foldl importLineStep st) := by
  induction ls with
  | nil => intro st; rfl
  | cons l rest ih =>
    have hl : l ≠ RawLine.nonObject := fun he => h (he ▸ List.mem_cons_self l rest)
    have hrest : RawLine.nonObject ∉ rest := fun hm => h (List.mem_cons_of_mem l hm)
    intro st
    cases l with
    | empty => exact ih hrest st
    | notJson => exact ih hrest st
    | nonObject => exact absurd rfl hl
    | obj e => exact ih hrest (importStep st e)

/-- C1 (amended): a line that is empty or that the JSON decoder rejects is
silently skipped by both scan loops — processing continues, no exception
escapes, the scan equals the fold over the decoded lines, and the message
count is determined by the well-formed lines alone.  A line holding valid
JSON of non-object shape is **not** skipped: only `JSONDecodeError` is
caught, so `event.get` raises an uncaught `AttributeError` that aborts the
scan (see the counterexample); the skip contract therefore holds exactly
for files free of such lines. -/
theorem C1_decode_skips_malformed (ls : List RawLine)
    (h : RawLine.nonObject ∉ ls) :
    parseLinesE ({} : ParserState) ls
        = Except.ok ((ls.map lineOfRaw).foldl lineStep ({} : ParserState))
    ∧ importLinesE ({} : ImportState) ls = Except.ok (import_parse (ls.map lineOfRaw))
    ∧ parse_session_file (ls.map lineOfRaw)
        = parse_session_file ((ls.map lineOfRaw).filter Line.isOk)
    ∧ (parse_session_file (ls.map lineOfRaw)).messages.length
        = (decodeLines (ls.map lineOfRaw)).countP emitsMessage := by
  refine ⟨parseLinesE_ok ls h ({} : ParserState),
    importLinesE_ok ls h ({} : ImportState), ?_, ?_⟩
  · simp only [parse_session_file]
    rw [foldl_lineStep_eq, foldl_lineStep_eq, decodeLines_filter]
  · simp only [parse_session_file]
    rw [foldl_lineStep_eq, parserRun_messages_len]
    simp

/-- Crash-free fixture for the C1 witness: an empty line, an invalid-JSON
line, and two decoded events. -/
def c1RawOk : List RawLine :=
  [RawLine.empty, RawLine.notJson,
   RawLine.obj (Event.user (some 1) (UserContent.str "hi") (some {})),
   RawLine.obj (Event.assistant (some 2) (some "m") {} [ContentPart.text "ok"])]

theorem C1_decode_skips_malformed_witness :
    RawLine.nonObject ∉ c1RawOk
    ∧ (parseLinesE ({} : ParserState) c1RawOk
          = Except.ok ((c1RawOk.map lineOfRaw).foldl lineStep ({} : ParserState))
       ∧ importLinesE ({} : ImportState) c1RawOk
          = Except.ok (import_parse (c1RawOk.map lineOfRaw))
       ∧ parse_session_file (c1RawOk.map lineOfRaw)
          = parse_session_file ((c1RawOk.map lineOfRaw).filter Line.isOk)
       ∧ (parse_session_file (c1RawOk.map lineOfRaw)).messages.length
          = (decodeLines (c1RawOk.map lineOfRaw)).countP emitsMessage) :=
  ⟨by decide, C1_decode_skips_malformed c1RawOk (by decide)⟩

/-- Fixture for the C1 counterexample: a well-formed event line, then a
valid-JSON non-object line (such as `[1, 2]`), then another well-formed
line. -/
def c1Raw : List RawLine :=
  [RawLine.obj (Event.user (some 1) (UserContent.str "hi") (some {})),
   RawLine.nonObject,
   RawLine.obj (Event.user (some 2) (UserContent.str "bye") (some {}))]

/-- Counterexample to C1 as stated: a valid-JSON non-object line is an
"unrecognised shape", yet both scan loops abort on it with an uncaught
exception instead of skipping it — the decode step does raise, and
processing of the subsequent well-formed line never happens. -/
theorem C1_counterexample :
    parseLinesE ({} : ParserState) c1Raw = Except.error ()
    ∧ importLinesE ({} : ImportState) c1Raw = Except.error () :=
  ⟨rfl, rfl⟩

/-- C2: plan-mode bucket invariant.  For every session file,
`planning_messages + execution_messages` equals the number of observed
message events (user events with string content plus assistant events — the
parser attributes every such event to exactly one bucket), and
`planning_tokens + execution_tokens` equals the total observed
input-plus-output tokens. -/
theorem C2_bucket_invariant (ls : List Line) :
    (parse_session_file ls).plan_mode_stats.planning_messages
        + (parse_session_file ls).plan_mode_stats.execution_messages
      = (decodeLines ls).countP isCountedMessageEvent
    ∧ (parse_session_file ls).plan_mode_stats.planning_tokens
        + (parse_session_file ls).plan_mode_stats.execution_tokens
      = (parse_session_file ls).total_input_tokens
        + (parse_session_file ls).total_output_tokens := by
  constructor
  · simp only [parse_session_file]
    rw [foldl_lineStep_eq]
    have h := parserRun_buckets (decodeLines ls) ({} : ParserState)
    simpa using h
  · simp only [parse_session_file]
    rw [foldl_lineStep_eq]
    have h := parserRun_tokens (decodeLines ls) ({} : ParserState)
    simpa using h


/-- C3: total planning time equals the sum over completed plan-mode spans
of exit minus entry timestamps (an open final span contributes nothing, and
`plan_mode_entries` counts entry triggers, the open span included);
execution time is derived once at the end as session wall time minus total
planning time, floored at zero.  The scenario — a `Write` into the plans
directory followed later by `ExitPlanMode` — is the witness fixture, which
accumulates exactly the timestamp delta of that single span and exactly one
plan-mode entry. -/
theorem C3_plan_time_spans (ls : List Line)
    (h : (decodeLines ls).filterMap Event.ts ≠ []) :
    (parse_session_file ls).plan_mode_stats.planning_time_seconds
      = spanSum (planSpans (decodeLines ls))
    ∧ (parse_session_file ls).plan_mode_stats.plan_mode_entries
      = planEntries (decodeLines ls)
    ∧ (parse_session_file ls).plan_mode_stats.execution_time_seconds
      = max 0 ((((decodeLines ls).filterMap Event.ts).getLastD 0
                - ((decodeLines ls).filterMap Event.ts).headD 0)
               - spanSum (planSpans (decodeLines ls))) := by
  obtain ⟨h1, h2, h3, h4⟩ :=
    sim_run (decodeLines ls) ({} : ParserState) ({} : SpanState) ⟨rfl, rfl, rfl, rfl⟩
  have hfirst := parserRun_first (decodeLines ls) ({} : ParserState)
  have hlast := parserRun_last (decodeLines ls) ({} : ParserState)
  refine ⟨?_, ?_, ?_⟩
  · simp only [parse_session_file]
    rw [foldl_lineStep_eq]
    exact h4
  · simp only [parse_session_file]
    rw [foldl_lineStep_eq]
    exact h3
  · simp only [parse_session_file]
    rw [foldl_lineStep_eq]
    rcases hL : (decodeLines ls).filterMap Event.ts with _ | ⟨t0, L⟩
    · exact absurd hL h
    · rw [hL] at hfirst hlast
      have htl : ∃ tl, (t0 :: L).getLast? = some tl := by
        cases hgl : (t0 :: L).getLast? with
        | none => simp [List.getLast?_eq_none_iff] at hgl
        | some x => exact ⟨x, rfl⟩
      obtain ⟨tl, htl⟩ := htl
      rw [htl] at hlast
      simp only [Option.or] at hfirst hlast
      rw [hfirst, hlast, h4]
      simp [List.getLastD_eq_getLast?, htl, List.headD, planSpans]


/-- Scenario fixture for C3: `Write` into the plans directory at t=100,
`ExitPlanMode` at t=160, last event at t=200, with one malformed line in
between. -/
def c3Lines : List Line :=
  [Line.ok (Event.user (some 100) (UserContent.str "hi") (some {})),
   Line.ok (Event.assistant (some 100) none {}
     [ContentPart.tool_use (some "t1") (some "Write")
        { file_path := some "/home/u/.claude/plans/p.md" }]),
   Line.malformed,
   Line.ok (Event.assistant (some 160) none {}
     [ContentPart.tool_use (some "t2") (some "ExitPlanMode") {}]),
   Line.ok (Event.assistant (some 200) none {} [ContentPart.text "done"])]

theorem C3_plan_time_spans_witness :
    ((parse_session_file c3Lines).plan_mode_stats.planning_time_seconds
        = spanSum (planSpans (decodeLines c3Lines))
      ∧ (parse_session_file c3Lines).plan_mode_stats.plan_mode_entries
        = planEntries (decodeLines c3Lines)
      ∧ (parse_session_file c3Lines).plan_mode_stats.execution_time_seconds
        = max 0 ((((decodeLines c3Lines).filterMap Event.ts).getLastD 0
                  - ((decodeLines c3Lines).filterMap Event.ts).headD 0)
                 - spanSum (planSpans (decodeLines c3Lines))))
    ∧ (parse_session_file c3Lines).plan_mode_stats.planning_time_seconds = 60
    ∧ (parse_session_file c3Lines).plan_mode_stats.plan_mode_entries = 1
    ∧ (parse_session_file c3Lines).plan_mode_stats.execution_time_seconds = 40 :=
  ⟨C3_plan_time_spans c3Lines (by decide), by decide, by decide, by decide⟩


theorem filter_fst_append_map {α : Type} (old : List (Nat × α)) (xs : List α) (sid : Nat)
    (hold : ∀ p ∈ old, p.1 ≠ sid) :
    (((old ++ xs.map fun m => (sid, m)).filter fun p => p.1 = sid).map Prod.snd) = xs := by
  rw [List.filter_append]
  have h1 : old.filter (fun p => decide (p.1 = sid)) = [] := by
    rw [List.filter_eq_nil]
    intro p hp
    simp [hold p hp]
  have h2 : ((xs.map fun m => (sid, m)).filter fun p => decide (p.1 = sid))
      = xs.map fun m => (sid, m) := by
    rw [List.filter_eq_self]
    intro p hp
    obtain ⟨m, hm, rfl⟩ := List.mem_map.1 hp
    simp
  rw [h1, h2]
  simp

theorem filter_fst_append_map2 {α : Type} (old : List (Nat × α)) (xs : List α) (sid : Nat) :
    (((old ++ xs.map fun m => (sid, m)).filter fun p => p.1 = sid).map Prod.snd)
      = ((old.filter fun p => p.1 = sid).map Prod.snd) ++ xs := by
  rw [List.filter_append, List.map_append]
  have h2 : ((xs.map fun m => (sid, m)).filter fun p => decide (p.1 = sid))
      = xs.map fun m => (sid, m) := by
    rw [List.filter_eq_self]
    intro p hp
    obtain ⟨m, hm, rfl⟩ := List.mem_map.1 hp
    simp
  rw [h2]
  simp

theorem import_session_sessions (now : Int) (db : Store) (sid : String) (ls : List Line) :
    ((import_session now db sid ls).sessions.filter fun r => r.session_id = sid)
      = [mkSessionRow now (freshIdOf db sid) sid (import_parse ls)] := by
  simp only [import_session]
  rw [List.filter_append]
  have h1 : ((db.sessions.filter fun r => r.session_id ≠ sid).filter
      fun r => decide (r.session_id = sid)) = [] := by
    rw [List.filter_eq_nil]
    intro r hr
    have := List.of_mem_filter hr
    simp at this ⊢
    exact this
  rw [h1]
  simp [mkSessionRow]

theorem import_session_children (now : Int) (db : Store) (sid : String) (ls : List Line)
    (hfresh : noChildrenAt db (freshIdOf db sid) = true) :
    childMessages (import_session now db sid ls) (freshIdOf db sid)
        = (import_parse ls).messages
    ∧ childTools (import_session now db sid ls) (freshIdOf db sid)
        = (import_parse ls).tool_usages
    ∧ childErrors (import_session now db sid ls) (freshIdOf db sid)
        = (import_parse ls).errors
    ∧ childSubagents (import_session now db sid ls) (freshIdOf db sid)
        = (import_parse ls).subagents := by
  simp only [noChildrenAt, Bool.and_eq_true, List.all_eq_true] at hfresh
  obtain ⟨⟨⟨hm, ht⟩, he⟩, hsub⟩ := hfresh
  refine ⟨?_, ?_, ?_, ?_⟩
  · exact filter_fst_append_map db.messages _ (freshIdOf db sid)
      (fun p hp => by have := hm p hp; simpa using this)
  · exact filter_fst_append_map db.tool_usages _ (freshIdOf db sid)
      (fun p hp => by have := ht p hp; simpa using this)
  · exact filter_fst_append_map db.errors _ (freshIdOf db sid)
      (fun p hp => by have := he p hp; simpa using this)
  · exact filter_fst_append_map db.subagents _ (freshIdOf db sid)
      (fun p hp => by have := hsub p hp; simpa using this)


/-- C5 (amended): the counters of the session row built by an import are
derived purely from the lengths of the collected child lists, so
`message_count`/`tool_call_count` equal the numbers of persisted
MessageRecords/ToolUsageRecords attached to the row whenever no
pre-existing child row carries the numeric identity the insert receives —
true of a first import of a fresh identifier into an orphan-free store, and
of the two-event fixture, where `message_count = 2`.  When a force
re-import reuses the maximum id of the session it just deleted, the
re-adopted orphans break the equality (see the counterexample). -/
theorem C5_counter_invariants (now : Int) (db : Store) (sid : String) (ls : List Line)
    (hfresh : noChildrenAt db (freshIdOf db sid) = true) :
    (((import_session now db sid ls).sessions.filter fun r => r.session_id = sid).all
      fun r =>
        decide (r.message_count
            = (childMessages (import_session now db sid ls) r.id).length)
        && decide (r.tool_call_count
            = (childTools (import_session now db sid ls) r.id).length)) = true := by
  rw [import_session_sessions]
  obtain ⟨hm, ht, _, _⟩ := import_session_children now db sid ls hfresh
  simp [mkSessionRow, hm, ht]

/-- Two-event fixture for C5: one user message and one assistant message
with text. -/
def c5Lines : List Line :=
  [Line.ok (Event.user (some 100) (UserContent.str "Hello") (some {})),
   Line.ok (Event.assistant (some 101) (some "claude-opus")
     { input_tokens := 10, output_tokens := 5, cache_read_input_tokens := 100,
       cache_creation_input_tokens := 50 }
     [ContentPart.text "Hi there!"])]

theorem C5_counter_invariants_witness :
    noChildrenAt ({} : Store) (freshIdOf ({} : Store) "s") = true
    ∧ (((import_session 0 {} "s" c5Lines).sessions.filter fun r => r.session_id = "s").all
        fun r =>
          decide (r.message_count
              = (childMessages (import_session 0 {} "s" c5Lines) r.id).length)
          && decide (r.tool_call_count
              = (childTools (import_session 0 {} "s" c5Lines) r.id).length)) = true
    ∧ ((import_session 0 {} "s" c5Lines).sessions.map fun r => r.message_count) = [2] :=
  ⟨by decide, C5_counter_invariants 0 {} "s" c5Lines (by decide), by decide⟩

/-- A one-line re-import file: a single user message. -/
def reLines : List Line :=
  [Line.ok (Event.user (some 5) (UserContent.str "new") (some {}))]

/-- Store fixture for the C5 counterexample: one session row (numeric id 1,
identifier `"t"`) owning one message row. -/
def c5Store : Store :=
  { sessions := [{ id := 1, session_id := "t", first_prompt := none, created_at := 0,
                   modified_at := none, message_count := 1, total_input_tokens := 0,
                   total_output_tokens := 0, total_cache_read_tokens := 0,
                   total_cache_creation_tokens := 0, tool_call_count := 0, error_count := 0,
                   duration_ms := none, subagent_count := 0, skill_count := 0 }],
    messages := [(1, { role := "user", content := "stale", timestamp := none })] }

/-- Counterexample to C5 as stated: re-importing `"t"` (the maximum-id —
here the only — session) bulk-deletes its row but not its message row, and
the fresh row receives the same numeric id 1 back, re-adopting the orphan:
the imported session ends with `message_count = 1` but two persisted
MessageRecords attached, so the claimed invariant fails. -/
theorem C5_counterexample :
    (((import_session 0 c5Store "t" reLines).sessions.filter
        fun r => r.session_id = "t").all
      fun r =>
        decide (r.message_count
            = (childMessages (import_session 0 c5Store "t" reLines) r.id).length)) = false := by
  decide


/-- C4 (amended): re-importing an existing session identifier without the
force flag leaves the store unchanged.  With the force flag, the bulk
delete removes only the session rows carrying that identifier — no ORM
cascade runs and no foreign keys are enforced, so their child rows stay
behind in the child tables — and a single fresh session row is inserted
whose numeric identity is SQLite rowid allocation: one plus the maximum id
of the remaining session rows.  The children attached to that identity
afterwards are the pre-existing child rows that carry it (none, unless the
deleted session held the maximum id, in which case its orphaned children
are re-adopted) followed by the freshly reconstructed ones. -/
theorem C4_reimport_replace (now : Int) (db : Store) (ls : List Line) (sid : String) :
    ((db.sessions.any fun r => r.session_id = sid) = true →
      maybe_import_session now db ls sid false = db)
    ∧ ((maybe_import_session now db ls sid true).sessions.countP
          fun r => r.session_id = sid) = 1
    ∧ (((maybe_import_session now db ls sid true).sessions.filter
          fun r => r.session_id = sid).all fun r =>
        decide (childMessages (maybe_import_session now db ls sid true) r.id
            = childMessages db r.id ++ (import_parse ls).messages)
        && decide (childTools (maybe_import_session now db ls sid true) r.id
            = childTools db r.id ++ (import_parse ls).tool_usages)
        && decide (childErrors (maybe_import_session now db ls sid true) r.id
            = childErrors db r.id ++ (import_parse ls).errors)
        && decide (childSubagents (maybe_import_session now db ls sid true) r.id
            = childSubagents db r.id ++ (import_parse ls).subagents)) = true := by
  have hforce : maybe_import_session now db ls sid true = import_session now db sid ls := by
    simp [maybe_import_session]
  refine ⟨?_, ?_, ?_⟩
  · intro hex
    simp [maybe_import_session, hex]
  · have hfilter := import_session_sessions now db sid ls
    have hcp : ((import_session now db sid ls).sessions.countP fun r => r.session_id = sid)
        = ((import_session now db sid ls).sessions.filter fun r => r.session_id = sid).length := by
      rw [List.countP_eq_length_filter]
    rw [hforce, hcp, hfilter]
    rfl
  · have hM : childMessages (import_session now db sid ls) (freshIdOf db sid)
        = childMessages db (freshIdOf db sid) ++ (import_parse ls).messages :=
      filter_fst_append_map2 db.messages (import_parse ls).messages (freshIdOf db sid)
    have hT : childTools (import_session now db sid ls) (freshIdOf db sid)
        = childTools db (freshIdOf db sid) ++ (import_parse ls).tool_usages :=
      filter_fst_append_map2 db.tool_usages (import_parse ls).tool_usages (freshIdOf db sid)
    have hE : childErrors (import_session now db sid ls) (freshIdOf db sid)
        = childErrors db (freshIdOf db sid) ++ (import_parse ls).errors :=
      filter_fst_append_map2 db.errors (import_parse ls).errors (freshIdOf db sid)
    have hS : childSubagents (import_session now db sid ls) (freshIdOf db sid)
        = childSubagents db (freshIdOf db sid) ++ (import_parse ls).subagents :=
      filter_fst_append_map2 db.subagents (import_parse ls).subagents (freshIdOf db sid)
    rw [hforce, import_session_sessions]
    simp [mkSessionRow, hM, hT, hE, hS]

/-- Store fixture for C4: one session row (numeric id 1, identifier `"s"`)
owning one message row. -/
def c4Store : Store :=
  { sessions := [{ id := 1, session_id := "s", first_prompt := none, created_at := 0,
                   modified_at := none, message_count := 1, total_input_tokens := 0,
                   total_output_tokens := 0, total_cache_read_tokens := 0,
                   total_cache_creation_tokens := 0, tool_call_count := 1, error_count := 0,
                   duration_ms := none, subagent_count := 0, skill_count := 0 }],
    messages := [(1, { role := "user", content := "old", timestamp := none })] }

/-- Counterexample to C4 as stated: force re-importing `"s"` over `c4Store`
does not delete the owned message row (the bulk delete removes only the
session row), the fresh row receives the *same* numeric id 1 back (it was
the maximum, and SQLite reuses it), and the old message re-attaches to it:
the store ends with message_count 1 but two MessageRecords for the
identifier — duplicate children, not a clean full replace. -/
theorem C4_counterexample :
    ((maybe_import_session 0 c4Store reLines "s" true).sessions.map
        fun r => (r.id, r.message_count)) = [(1, 1)]
    ∧ ({ role := "user", content := "old", timestamp := none } : MessageRec)
        ∈ childMessages (maybe_import_session 0 c4Store reLines "s" true) 1
    ∧ (childMessages (maybe_import_session 0 c4Store reLines "s" true) 1).length = 2 :=
  ⟨by decide, by decide, by decide⟩

theorem C4_reimport_replace_witness :
    maybe_import_session 0 c4Store reLines "s" false = c4Store
    ∧ ((maybe_import_session 0 c4Store reLines "s" true).sessions.countP
        fun r => r.session_id = "s") = 1
    ∧ (((maybe_import_session 0 c4Store reLines "s" true).sessions.filter
          fun r => r.session_id = "s").all fun r =>
        decide (childMessages (maybe_import_session 0 c4Store reLines "s" true) r.id
            = childMessages c4Store r.id ++ (import_parse reLines).messages)
        && decide (childTools (maybe_import_session 0 c4Store reLines "s" true) r.id
            = childTools c4Store r.id ++ (import_parse reLines).tool_usages)
        && decide (childErrors (maybe_import_session 0 c4Store reLines "s" true) r.id
            = childErrors c4Store r.id ++ (import_parse reLines).errors)
        && decide (childSubagents (maybe_import_session 0 c4Store reLines "s" true) r.id
            = childSubagents c4Store r.id ++ (import_parse reLines).subagents)) = true :=
  ⟨(C4_reimport_replace 0 c4Store reLines "s").1 (by decide),
   (C4_reimport_replace 0 c4Store reLines "s").2.1,
   (C4_reimport_replace 0 c4Store reLines "s").2.2⟩

/-- The daily component of the stats fold, in isolation. -/
def dailyStep (m : List (Int × DailyAgg)) (s : SessionRow) : List (Int × DailyAgg) :=
  bumpAssoc m (dateOf s.created_at) {} (dailyAdd s)

theorem statsFold_daily (db : Store) (sessions : List SessionRow) :
    ∀ acc : StatsAcc,
    (sessions.foldl (statsStep db) acc).daily = sessions.foldl dailyStep acc.daily := by
  induction sessions with
  | nil => intro acc; rfl
  | cons s rest ih =>
    intro acc
    rw [List.foldl_cons, List.foldl_cons, ih]
    rfl

/-- Number of persisted sessions dated on day `d`. -/
def dailyCount (sessions : List SessionRow) (d : Int) : Nat :=
  sessions.countP fun s => dateOf s.created_at = d

/-- Grouping invariant of the daily accumulator: one bucket per seen date,
each carrying the count of sessions so far on that date. -/
def InvD (m : List (Int × DailyAgg)) (done : List SessionRow) : Prop :=
  (∀ d, (m.countP fun p => p.1 = d) = if dailyCount done d = 0 then 0 else 1)
  ∧ (∀ p ∈ m, p.2.session_count = dailyCount done p.1)

theorem InvD_bump (m : List (Int × DailyAgg)) (done : List SessionRow) (s : SessionRow)
    (h : InvD m done) : InvD (dailyStep m s) (done ++ [s]) := by
  obtain ⟨hc, hv⟩ := h
  have hcount : ∀ d, dailyCount (done ++ [s]) d
      = dailyCount done d + (if dateOf s.created_at = d then 1 else 0) := by
    intro d
    simp [dailyCount, List.countP_append, List.countP_cons]
  by_cases hk : (m.any fun p => p.1 = dateOf s.created_at) = true
  · have hbump : dailyStep m s
        = m.map fun p => if p.1 = dateOf s.created_at then (p.1, dailyAdd s p.2) else p := by
      simp [dailyStep, bumpAssoc, hk]
    have hkpos : dailyCount done (dateOf s.created_at) ≠ 0 := by
      intro h0
      have hzero := hc (dateOf s.created_at)
      rw [h0] at hzero
      simp at hzero
      rw [List.any_eq_true] at hk
      obtain ⟨p, hp, hpk⟩ := hk
      exact absurd (by simpa using hpk) (hzero p.1 p.2 hp)
    constructor
    · intro d
      rw [hbump, List.countP_map]
      have hfun : ((fun p => decide (p.1 = d)) ∘
          fun p : Int × DailyAgg =>
            if p.1 = dateOf s.created_at then (p.1, dailyAdd s p.2) else p)
          = fun p : Int × DailyAgg => decide (p.1 = d) := by
        funext p
        by_cases hp : p.1 = dateOf s.created_at <;> simp [hp]
      rw [hfun, hc d, hcount d]
      by_cases hd : dateOf s.created_at = d
      · rw [← hd]
        simp [hkpos]
        try (split <;> simp_all)
      · simp [hd]
    · intro p hp
      rw [hbump] at hp
      obtain ⟨q, hq, hqe⟩ := List.mem_map.1 hp
      by_cases hqk : q.1 = dateOf s.created_at
      · rw [if_pos hqk] at hqe
        subst hqe
        have hsc : (dailyAdd s q.2).session_count = q.2.session_count + 1 := rfl
        show (dailyAdd s q.2).session_count = dailyCount (done ++ [s]) q.1
        rw [hsc, hv q hq, hcount, hqk]
        simp
      · rw [if_neg hqk] at hqe
        subst hqe
        rw [hv q hq, hcount]
        have hne : dateOf s.created_at ≠ q.1 := fun hcontra => hqk hcontra.symm
        simp [hne]
  · have hbump : dailyStep m s = m ++ [(dateOf s.created_at, dailyAdd s {})] := by
      simp only [dailyStep, bumpAssoc]
      rw [if_neg]
      simpa using hk
    have hnomem : ∀ p ∈ m, p.1 ≠ dateOf s.created_at := by
      intro p hp hpk
      apply hk
      rw [List.any_eq_true]
      exact ⟨p, hp, by simpa using hpk⟩
    have hk0 : dailyCount done (dateOf s.created_at) = 0 := by
      by_contra h0
      have hzero := hc (dateOf s.created_at)
      rw [if_neg h0] at hzero
      have hpos : 0 < m.countP fun p => decide (p.1 = dateOf s.created_at) := by omega
      rw [List.countP_pos] at hpos
      obtain ⟨p, hp, hpk⟩ := hpos
      exact hnomem p hp (by simpa using hpk)
    constructor
    · intro d
      rw [hbump, List.countP_append, hc d, hcount d]
      by_cases hd : dateOf s.created_at = d
      · rw [← hd]
        simp [hk0]
      · simp [hd]
    · intro p hp
      rcases List.mem_append.1 (hbump ▸ hp) with hp1 | hp1
      · rw [hv p hp1, hcount]
        have hne : dateOf s.created_at ≠ p.1 :=
          fun hcontra => hnomem p hp1 hcontra.symm
        simp [hne]
      · simp only [List.mem_singleton] at hp1
        subst hp1
        rw [hcount]
        have h1 : (dailyAdd s ({} : DailyAgg)).session_count = 1 := rfl
        simp [h1, hk0]


theorem InvD_run (sessions : List SessionRow) :
    ∀ (m : List (Int × DailyAgg)) (done : List SessionRow), InvD m done →
    InvD (sessions.foldl dailyStep m) (done ++ sessions) := by
  induction sessions with
  | nil => intro m done h; simpa using h
  | cons s rest ih =>
    intro m done h
    rw [List.foldl_cons]
    have h2 := InvD_bump m done s h
    have h3 := ih (dailyStep m s) (done ++ [s]) h2
    simpa [List.append_assoc] using h3

/-- C8: after an import batch the roll-up tables are rebuilt from scratch
by scanning all persisted sessions: the prior roll-up rows have no
influence on the result, the daily roll-up holds exactly one row per date
that has any session, and every daily row's `session_count` equals the
number of persisted sessions on that date (so two distinct dates give
exactly two rows with the right counts). -/
theorem C8_rollup_rebuild (db : Store) (d : Int)
    (ds0 : List DailyStatsRow) (ts0 : List ToolStatsRow) (es0 : List ErrorStatsRow) :
    ((update_daily_stats db).daily_stats.countP fun row => row.date = d)
      = (if db.sessions.any (fun s => dateOf s.created_at = d) then 1 else 0)
    ∧ ((update_daily_stats db).daily_stats.all fun row =>
        !(decide (row.date = d))
        || decide (row.session_count
            = db.sessions.countP fun s => dateOf s.created_at = d)) = true
    ∧ update_daily_stats
        { db with daily_stats := ds0, tool_stats := ts0, error_stats := es0 }
      = update_daily_stats db := by
  have hinv : InvD (db.sessions.foldl dailyStep []) db.sessions := by
    have h0 : InvD [] [] := by
      constructor
      · intro d2
        simp [dailyCount]
      · intro p hp
        simp at hp
    simpa using InvD_run db.sessions [] [] h0
  obtain ⟨hc, hv⟩ := hinv
  refine ⟨?_, ?_, ?_⟩
  · simp only [update_daily_stats]
    rw [statsFold_daily, List.countP_map]
    show List.countP (fun p : Int × DailyAgg => decide (p.1 = d))
        (db.sessions.foldl dailyStep []) = _
    rw [hc d]
    by_cases hany : (db.sessions.any fun s => dateOf s.created_at = d) = true
    · rw [if_pos hany]
      rw [List.any_eq_true] at hany
      obtain ⟨s, hs, hsd⟩ := hany
      have hne : dailyCount db.sessions d ≠ 0 := by
        intro h0
        rw [dailyCount, List.countP_eq_zero] at h0
        exact absurd hsd (by simpa using h0 s hs)
      simp [hne]
    · rw [if_neg hany]
      have hz : dailyCount db.sessions d = 0 := by
        rw [dailyCount, List.countP_eq_zero]
        intro s hs hsd
        exact hany (List.any_eq_true.2 ⟨s, hs, hsd⟩)
      simp [hz]
  · simp only [update_daily_stats]
    rw [statsFold_daily]
    rw [List.all_eq_true]
    intro row hrow
    obtain ⟨p, hp, hpe⟩ := List.mem_map.1 hrow
    subst hpe
    by_cases hd : p.1 = d
    · have hval := hv p hp
      rw [hd] at hval
      simp [hd, hval, dailyCount]
    · simp [hd]
  · rfl


theorem lookup_eq_none_of_keys {α β : Type} [BEq α] [LawfulBEq α]
    (m : List (α × β)) (c : α) (h : ∀ p ∈ m, p.1 ≠ c) : m.lookup c = none := by
  induction m with
  | nil => rfl
  | cons p rest ih =>
    have hp : p.1 ≠ c := h p (List.mem_cons_self p rest)
    have hbeq : (c == p.1) = false := by
      rw [beq_eq_false_iff_ne]
      exact fun hcontra => hp hcontra.symm
    cases p with
    | mk k v =>
      simp only [List.lookup, hbeq]
      exact ih fun q hq => h q (List.mem_cons_of_mem _ hq)

theorem errUserFold_toolUses (sid pp : String) (ps : List UserPart) :
    ∀ st : ErrState, (ps.foldl (errUserPart sid pp) st).tool_uses = st.tool_uses := by
  induction ps with
  | nil => intro st; rfl
  | cons p rest ih =>
    intro st
    rw [List.foldl_cons, ih]
    cases p with
    | tool_result a b c =>
      simp only [errUserPart]
      split <;> rfl
    | otherPart => rfl

theorem errUserFold_errors_len (sid pp : String) (ps : List UserPart) :
    ∀ st : ErrState, (ps.foldl (errUserPart sid pp) st).errors.length
      = st.errors.length + (ps.countP fun p =>
          match p with
          | UserPart.tool_result _ b _ => b
          | UserPart.otherPart => false) := by
  induction ps with
  | nil => intro st; simp
  | cons p rest ih =>
    intro st
    rw [List.foldl_cons, ih, List.countP_cons]
    cases p with
    | tool_result a b c =>
      cases b <;> simp [errUserPart] <;> omega
    | otherPart => simp [errUserPart]

theorem errAssistantFold_errors (ts : Option Int) (content : List ContentPart) :
    ∀ st : ErrState, (content.foldl (errAssistantPart ts) st).errors = st.errors := by
  induction content with
  | nil => intro st; rfl
  | cons p rest ih =>
    intro st
    rw [List.foldl_cons, ih]
    cases p <;> rfl

theorem errAssistantFold_toolUses (ts : Option Int) (content : List ContentPart) :
    ∀ (st : ErrState) (k : Option String × ToolUseInfo),
      k ∈ (content.foldl (errAssistantPart ts) st).tool_uses →
      k.1 ∈ (content.filterMap fun p =>
        match p with
        | ContentPart.tool_use id _ _ => some id
        | _ => none) ∨ k ∈ st.tool_uses := by
  induction content with
  | nil => intro st k hk; exact Or.inr hk
  | cons p rest ih =>
    intro st k hk
    rw [List.foldl_cons] at hk
    rcases ih _ k hk with h1 | h1
    · left
      cases p <;> simp [List.filterMap_cons] at h1 ⊢ <;> tauto
    · cases p with
      | text s => exact Or.inr h1
      | otherPart => exact Or.inr h1
      | tool_use id name input =>
        simp only [errAssistantPart] at h1
        rcases List.mem_cons.1 h1 with h2 | h2
        · left
          subst h2
          simp [List.filterMap_cons]
        · exact Or.inr h2

theorem errStep_len (sid pp : String) (st : ErrState) (e : Event) :
    (errEventStep sid pp st e).errors.length = st.errors.length + errorResultCount e := by
  cases e with
  | user ts content tur =>
    cases content with
    | str s => simp [errEventStep, errorResultCount]
    | parts ps =>
      simp only [errEventStep, errorResultCount]
      rw [errUserFold_errors_len]
    | otherContent => simp [errEventStep, errorResultCount]
  | assistant ts model usage content =>
    simp only [errEventStep, errorResultCount]
    rw [errAssistantFold_errors]
    simp
  | system ts a b c d e2 => simp [errEventStep, errorResultCount]
  | otherEvent ts => simp [errEventStep, errorResultCount]

theorem errRun_len (sid pp : String) (ls : List Line) :
    ∀ st : ErrState, (ls.foldl (errLineStep sid pp) st).errors.length
      = st.errors.length + ((decodeLines ls).map errorResultCount).sum := by
  induction ls with
  | nil => intro st; simp [decodeLines]
  | cons l rest ih =>
    intro st
    rw [List.foldl_cons]
    cases l with
    | empty => simpa [decodeLines, List.filterMap_cons] using ih st
    | malformed => simpa [decodeLines, List.filterMap_cons] using ih st
    | ok e =>
      rw [ih]
      simp [decodeLines, List.filterMap_cons, errLineStep]
      rw [errStep_len]
      omega

theorem errRun_keys (sid pp : String) (ls : List Line) :
    ∀ (st : ErrState) (k : Option String × ToolUseInfo),
      k ∈ (ls.foldl (errLineStep sid pp) st).tool_uses →
      k.1 ∈ toolUseIdsIn (decodeLines ls) ∨ k ∈ st.tool_uses := by
  induction ls with
  | nil => intro st k hk; exact Or.inr hk
  | cons l rest ih =>
    intro st k hk
    rw [List.foldl_cons] at hk
    have hdec : decodeLines (l :: rest) =
        (match l with | Line.ok e => [e] | _ => []) ++ decodeLines rest := by
      cases l <;> simp [decodeLines, List.filterMap_cons]
    rcases ih _ k hk with h1 | h1
    · left
      rw [hdec]
      cases l <;> simp [toolUseIdsIn] <;> simp at * <;> tauto
    · cases l with
      | empty => exact Or.inr h1
      | malformed => exact Or.inr h1
      | ok e =>
        cases e with
        | user ts content tur =>
          simp only [errLineStep, errEventStep] at h1
          cases content with
          | str s => exact Or.inr h1
          | otherContent => exact Or.inr h1
          | parts ps =>
            rw [errUserFold_toolUses] at h1
            exact Or.inr h1
        | assistant ts model usage content =>
          simp only [errLineStep, errEventStep] at h1
          rcases errAssistantFold_toolUses ts content st k h1 with h2 | h2
          · left
            rw [hdec]
            show k.1 ∈ toolUseIdsIn
              (Event.assistant ts model usage content :: decodeLines rest)
            show k.1 ∈ eventToolUseIds (Event.assistant ts model usage content)
              ++ toolUseIdsIn (decodeLines rest)
            exact List.mem_append.2 (Or.inl h2)
          · exact Or.inr h2
        | system ts a b c d e2 => exact Or.inr h1
        | otherEvent ts => exact Or.inr h1

theorem errRun_errors_ext (sid pp : String) (ls : List Line) :
    ∀ st : ErrState, ∃ tail, (ls.foldl (errLineStep sid pp) st).errors = st.errors ++ tail := by
  induction ls with
  | nil => intro st; exact ⟨[], by simp⟩
  | cons l rest ih =>
    intro st
    rw [List.foldl_cons]
    have hstep : ∃ t1, (errLineStep sid pp st l).errors = st.errors ++ t1 := by
      cases l with
      | empty => exact ⟨[], by simp [errLineStep]⟩
      | malformed => exact ⟨[], by simp [errLineStep]⟩
      | ok e =>
        cases e with
        | user ts content tur =>
          cases content with
          | str s => exact ⟨[], by simp [errLineStep, errEventStep]⟩
          | otherContent => exact ⟨[], by simp [errLineStep, errEventStep]⟩
          | parts ps =>
            simp only [errLineStep, errEventStep]
            clear ih
            induction ps generalizing st with
            | nil => exact ⟨[], by simp⟩
            | cons p ps2 ih2 =>
              rw [List.foldl_cons]
              obtain ⟨t2, ht2⟩ := ih2 (errUserPart sid pp st p)
              rw [ht2]
              cases p with
              | tool_result a b c =>
                simp only [errUserPart]
                split
                · exact ⟨_, List.append_assoc _ _ _⟩
                · exact ⟨t2, rfl⟩
              | otherPart => exact ⟨t2, rfl⟩
        | assistant ts model usage content =>
          simp only [errLineStep, errEventStep]
          rw [errAssistantFold_errors]
          exact ⟨[], by simp⟩
        | system ts a b c d e2 => exact ⟨[], by simp [errLineStep, errEventStep]⟩
        | otherEvent ts => exact ⟨[], by simp [errLineStep, errEventStep]⟩
    obtain ⟨t1, ht1⟩ := hstep
    obtain ⟨t2, ht2⟩ := ih (errLineStep sid pp st l)
    exact ⟨t1 ++ t2, by rw [ht2, ht1, List.append_assoc]⟩


/-- The record `_parse_session_errors` emits for an error-flagged
tool-result whose correlation id was never seen: tool name `"unknown"`, no
timestamp, no tool input. -/
def orphanToolError (sid pp content : String) : ToolErrorRec :=
  let base : ToolErrorRec :=
    { tool_name := some "unknown", error_message := strTake content 1000,
      error_category := categorize_error content, timestamp := none,
      session_id := sid, project_path := pp, tool_input := none, subcategory := none }
  { base with subcategory := get_subcategory base }

/-- C10: the on-demand error analyzer never drops an error for lack of
correlation: the number of reconstructed ToolErrorRecords always equals the
number of error-flagged tool-result parts in the file, and an error-flagged
part whose correlation id has no previously seen tool-use event still emits
a record, with tool name `"unknown"`, no timestamp and no tool input. -/
theorem C10_uncorrelated_errors_kept (sid pp : String) (pre post : List Line)
    (c : Option String) (content : String) (ts : Option Int)
    (tur : Option ToolUseResultPayload)
    (h : c ∉ toolUseIdsIn (decodeLines pre)) :
    (∀ ls : List Line, (parse_session_errors ls sid pp).length
        = ((decodeLines ls).map errorResultCount).sum)
    ∧ (parse_session_errors
        (pre ++ Line.ok (Event.user ts (UserContent.parts
            [UserPart.tool_result c true content]) tur) :: post) sid pp).get?
        (parse_session_errors pre sid pp).length
      = some (orphanToolError sid pp content) := by
  constructor
  · intro ls
    simp only [parse_session_errors]
    rw [errRun_len]
    simp
  · simp only [parse_session_errors]
    rw [List.foldl_append, List.foldl_cons]
    have hlook : (pre.foldl (errLineStep sid pp) ({} : ErrState)).tool_uses.lookup c
        = none := by
      apply lookup_eq_none_of_keys
      intro p hp hpc
      rcases errRun_keys sid pp pre {} p hp with h1 | h1
      · exact h (hpc ▸ h1)
      · simp [ErrState.tool_uses] at h1
    have hstep : (errLineStep sid pp (pre.foldl (errLineStep sid pp) ({} : ErrState))
          (Line.ok (Event.user ts (UserContent.parts
            [UserPart.tool_result c true content]) tur))).errors
        = (pre.foldl (errLineStep sid pp) ({} : ErrState)).errors
            ++ [orphanToolError sid pp content] := by
      simp [errLineStep, errEventStep, errUserPart, hlook, orphanToolError]
    obtain ⟨tail, htail⟩ := errRun_errors_ext sid pp post
      (errLineStep sid pp (pre.foldl (errLineStep sid pp) ({} : ErrState))
        (Line.ok (Event.user ts (UserContent.parts
          [UserPart.tool_result c true content]) tur)))
    rw [htail, hstep, List.append_assoc, List.get?_append_right le_rfl]
    simp

/-- Fixture for C10: one seen tool-use with correlation id `"a"`, then an
error-flagged tool-result with the never-seen correlation id `"b"`. -/
def c10Pre : List Line :=
  [Line.ok (Event.assistant (some 100) none {}
    [ContentPart.tool_use (some "a") (some "Bash") {}])]

def c10Full : List Line :=
  c10Pre ++ Line.ok (Event.user (some 101) (UserContent.parts
    [UserPart.tool_result (some "b") true "No such tool available: foo"]) none) :: []

theorem C10_uncorrelated_errors_kept_witness :
    (parse_session_errors c10Full "s" "p").get?
        (parse_session_errors c10Pre "s" "p").length
      = some (orphanToolError "s" "p" "No such tool available: foo")
    ∧ (parse_session_errors c10Full "s" "p").length
      = ((decodeLines c10Full).map errorResultCount).sum :=
  ⟨(C10_uncorrelated_errors_kept "s" "p" c10Pre [] (some "b")
      "No such tool available: foo" (some 101) none (by decide)).2,
   (C10_uncorrelated_errors_kept "s" "p" c10Pre [] (some "b")
      "No such tool available: foo" (some 101) none (by decide)).1 c10Full⟩


theorem enrich_enrich (b : SubagentRec) (r1 r2 : ToolUseResultPayload) :
    enrichSubagent (enrichSubagent b r1) r2 = enrichSubagent b r2 := rfl

theorem spawnOccs_append (xs ys : List Event) :
    spawnOccs (xs ++ ys)
      = ((spawnOccs xs).map fun occ => (occ.1, occ.2.1, occ.2.2 ++ ys))
        ++ spawnOccs ys := by
  induction xs with
  | nil => simp [spawnOccs]
  | cons e rest ih =>
    show (spawnsInEvent e).map (fun pr => (pr.1, pr.2, rest ++ ys))
        ++ spawnOccs (rest ++ ys) = _
    rw [ih]
    simp only [spawnOccs, List.map_append, List.map_map, List.append_assoc]
    rfl

theorem spawnPairs_append (xs ys : List Event) :
    spawnPairs (xs ++ ys) = spawnPairs xs ++ spawnPairs ys := by
  induction xs with
  | nil => simp [spawnPairs]
  | cons e rest ih => simp [spawnPairs, ih]

theorem completionsIn_append (xs ys : List Event) :
    completionsIn (xs ++ ys) = completionsIn xs ++ completionsIn ys := by
  induction xs with
  | nil => simp [completionsIn]
  | cons e rest ih => simp [completionsIn, ih]

theorem spawnOccs_pairs (es : List Event) :
    (spawnOccs es).map (fun occ => (occ.1, occ.2.1)) = spawnPairs es := by
  induction es with
  | nil => rfl
  | cons e rest ih =>
    simp only [spawnOccs, spawnPairs, List.map_append, List.map_map, ih]
    have hcomp : ((fun occ : SubagentRec × Option String × List Event => (occ.1, occ.2.1))
        ∘ fun pr : SubagentRec × Option String => (pr.1, pr.2, rest)) = id := by
      funext pr
      rfl
    rw [hcomp, List.map_id]

theorem spawnOccs_length (es : List Event) :
    (spawnOccs es).length = (spawnPairs es).length := by
  rw [← spawnOccs_pairs, List.length_map]

theorem subagentsSpec_length (es : List Event) :
    (subagentsSpec es).length = (spawnPairs es).length := by
  rw [subagentsSpec, List.length_map, spawnOccs_length]

theorem pendingAdds_append (base : Nat) (xs ys : List (SubagentRec × Option String)) :
    pendingAdds base (xs ++ ys)
      = pendingAdds base xs ++ pendingAdds (base + xs.length) ys := by
  induction xs generalizing base with
  | nil => simp [pendingAdds]
  | cons pr rest ih =>
    simp [pendingAdds, ih, List.append_assoc]
    have : base + 1 + rest.length = base + (rest.length + 1) := by omega
    rw [this]

theorem lastFor_cons (a c : String) (r : ToolUseResultPayload)
    (cs : List (String × ToolUseResultPayload)) :
    lastFor a ((c, r) :: cs)
      = if a = c then (lastFor a cs).or (some r) else lastFor a cs := by
  by_cases h : c = a
  · subst h
    simp [lastFor, List.filterMap_cons, getLast?_cons_or]
  · have h2 : ¬(a = c) := fun hc => h hc.symm
    simp [lastFor, List.filterMap_cons, h, h2]

theorem zip_get? {α β : Type} (l1 : List α) (l2 : List β) (i : Nat) :
    (l1.zip l2).get? i
      = match l1.get? i, l2.get? i with
        | some a, some b => some (a, b)
        | _, _ => none := by
  induction l1 generalizing l2 i with
  | nil => cases l2 <;> simp
  | cons a rest ih =>
    cases l2 with
    | nil => simp
    | cons b rest2 =>
      cases i with
      | zero => simp
      | succ n => simpa using ih rest2 n

theorem lookup_mem {α β : Type} [BEq α] [LawfulBEq α]
    (m : List (α × β)) (c : α) (v : β) (h : m.lookup c = some v) : (c, v) ∈ m := by
  induction m with
  | nil => simp [List.lookup] at h
  | cons p rest ih =>
    cases p with
    | mk k w =>
      by_cases hk : c == k
      · simp only [List.lookup, hk] at h
        have : c = k := eq_of_beq hk
        subst this
        cases h
        exact List.mem_cons_self _ _
      · simp only [List.lookup] at h
        rw [Bool.not_eq_true] at hk
        rw [hk] at h
        exact List.mem_cons_of_mem _ (ih h)

theorem lookup_of_mem_nodup {α β : Type} [BEq α] [LawfulBEq α]
    (m : List (α × β)) (c : α) (v : β)
    (hmem : (c, v) ∈ m) (hnd : (m.map Prod.fst).Nodup) : m.lookup c = some v := by
  induction m with
  | nil => simp at hmem
  | cons p rest ih =>
    rw [List.map_cons, List.nodup_cons] at hnd
    obtain ⟨hp1, hp2⟩ := hnd
    rcases List.mem_cons.1 hmem with h1 | h1
    · subst h1
      simp [List.lookup]
    · have hck : ¬(c == p.1) = true := by
        intro hbeq
        have hc2 : c = p.1 := eq_of_beq hbeq
        apply hp1
        rw [← hc2]
        exact List.mem_map.2 ⟨(c, v), h1, rfl⟩
      cases p with
      | mk k w =>
        simp only [List.lookup]
        rw [Bool.not_eq_true] at hck
        rw [hck]
        exact ih h1 hp2


theorem importPartStep_spawn (ts : Option Int) (st : ImportState) (t : String)
    (p : ContentPart) :
    ((importPartStep ts (st, t) p).1.subagents, (importPartStep ts (st, t) p).1.pending)
      = (match spawnOfPart ts p with
         | some q =>
           (st.subagents ++ [q.1],
            match q.2 with
            | some c =>
              if c = "" then st.pending else (c, st.subagents.length) :: st.pending
            | none => st.pending)
         | none => (st.subagents, st.pending)) := by
  cases p with
  | text s => rfl
  | otherPart => rfl
  | tool_use id name input =>
    by_cases hag : (classify_tool (name.getD "unknown") input).category = "agent"
    · have hsk : ¬(classify_tool (name.getD "unknown") input).category = "skill" := by
        rw [hag]; decide
      cases id with
      | none => simp [importPartStep, spawnOfPart, hag, hsk]
      | some c =>
        by_cases hc : c = ""
        · simp [importPartStep, spawnOfPart, hag, hsk, hc]
        · simp [importPartStep, spawnOfPart, hag, hsk, hc]
    · by_cases hsk : (classify_tool (name.getD "unknown") input).category = "skill"
      · simp [importPartStep, spawnOfPart, hag, hsk]
      · simp [importPartStep, spawnOfPart, hag, hsk]


theorem importPartsFold_spawns (ts : Option Int) (content : List ContentPart) :
    ∀ (st : ImportState) (t : String),
      (content.foldl (importPartStep ts) (st, t)).1.subagents
        = st.subagents ++ (content.filterMap (spawnOfPart ts)).map Prod.fst
      ∧ (content.foldl (importPartStep ts) (st, t)).1.pending
        = (pendingAdds st.subagents.length (content.filterMap (spawnOfPart ts))).reverse
          ++ st.pending := by
  induction content with
  | nil => intro st t; simp [pendingAdds]
  | cons p rest ih =>
    intro st t
    rw [List.foldl_cons]
    have heta : importPartStep ts (st, t) p
        = ((importPartStep ts (st, t) p).1, (importPartStep ts (st, t) p).2) := rfl
    rw [heta]
    obtain ⟨h1, h2⟩ := ih (importPartStep ts (st, t) p).1 (importPartStep ts (st, t) p).2
    rw [h1, h2]
    have hstep := importPartStep_spawn ts st t p
    rcases hsp : spawnOfPart ts p with _ | ⟨rec, id⟩
    · rw [hsp] at hstep
      simp only [Prod.mk.injEq] at hstep
      obtain ⟨hs1, hs2⟩ := hstep
      rw [hs1, hs2, List.filterMap_cons, hsp]
      exact ⟨rfl, rfl⟩
    · rw [hsp] at hstep
      simp only [Prod.mk.injEq] at hstep
      obtain ⟨hs1, hs2⟩ := hstep
      rw [hs1, hs2, List.filterMap_cons, hsp]
      constructor
      · simp [List.append_assoc]
      · show (pendingAdds (st.subagents ++ [rec]).length
            (rest.filterMap (spawnOfPart ts))).reverse ++ _ = _
        rw [List.length_append]
        simp only [pendingAdds, List.reverse_append]
        cases id with
        | none => simp
        | some c =>
          by_cases hc : c = ""
          · simp [hc]
          · simp [hc]


theorem ImportState.eta_sub (st : ImportState) :
    ({ st with subagents := st.subagents } : ImportState) = st := rfl

theorem importUserItemStep_char (tur : Option ToolUseResultPayload)
    (st : ImportState) (item : UserPart) :
    importUserItemStep tur st item
      = { st with subagents :=
          match compOfItem tur item with
          | some q => setEnrich st.subagents st.pending q.1 q.2
          | none => st.subagents } := by
  cases item with
  | otherPart => rfl
  | tool_result id ie content =>
    cases id with
    | none =>
      cases tur with
      | none => rfl
      | some r =>
        simp only [importUserItemStep, compOfItem]
        split <;> rfl
    | some c =>
      cases tur with
      | none => rfl
      | some r =>
        by_cases htr : truthyStr r.agentId = true
        · by_cases hc : c = ""
          · subst hc
            simp [importUserItemStep, compOfItem, htr, ImportState.eta_sub]
          · have hd : decide (c = "") = false := decide_eq_false hc
            simp only [importUserItemStep, compOfItem, setEnrich, htr, hc, hd,
              decide_False, Bool.not_false, Bool.and_true, Bool.and_self,
              if_true, if_false, ite_true, ite_false, eq_self_iff_true]
            rcases hlk : List.lookup c st.pending with _ | idx
            · rfl
            · show (match st.subagents.get? idx with
                    | some rec => { st with subagents := st.subagents.set idx (enrichSubagent rec r) }
                    | none => st)
                  = { st with subagents :=
                      match st.subagents.get? idx with
                      | some rec => st.subagents.set idx (enrichSubagent rec r)
                      | none => st.subagents }
              rcases hg : st.subagents.get? idx with _ | rec
              · rfl
              · rfl
        · have htr2 : truthyStr r.agentId = false := by
            cases h : truthyStr r.agentId
            · rfl
            · exact absurd h htr
          simp [importUserItemStep, compOfItem, htr2, ImportState.eta_sub]

theorem importUserFold_subagents (tur : Option ToolUseResultPayload)
    (items : List UserPart) :
    ∀ st : ImportState,
      (items.foldl (importUserItemStep tur) st).pending = st.pending
      ∧ (items.foldl (importUserItemStep tur) st).subagents
        = (items.filterMap (compOfItem tur)).foldl
            (fun sps q => setEnrich sps st.pending q.1 q.2) st.subagents := by
  induction items with
  | nil => intro st; exact ⟨rfl, rfl⟩
  | cons item rest ih =>
    intro st
    rw [List.foldl_cons, importUserItemStep_char, List.filterMap_cons]
    rcases hq : compOfItem tur item with _ | q
    · exact ih st
    · exact ih { st with subagents := setEnrich st.subagents st.pending q.1 q.2 }

theorem importStep_subagents (st : ImportState) (e : Event) :
    (importStep st e).pending
      = (pendingAdds st.subagents.length (spawnsInEvent e)).reverse ++ st.pending
    ∧ (importStep st e).subagents
      = (completionsInEvent e).foldl
          (fun sps q => setEnrich sps st.pending q.1 q.2)
          (st.subagents ++ (spawnsInEvent e).map Prod.fst) := by
  cases e with
  | user ts content tur =>
    cases content with
    | str s =>
      simp only [importStep, Event.ts, spawnsInEvent, completionsInEvent]
      repeat' split
      all_goals simp [pendingAdds]
    | parts ps =>
      simp only [importStep, Event.ts, spawnsInEvent, completionsInEvent]
      repeat' split
      all_goals simp [importUserFold_subagents, pendingAdds]
    | otherContent =>
      simp only [importStep, Event.ts, spawnsInEvent, completionsInEvent]
      repeat' split
      all_goals simp [pendingAdds]
  | assistant ts model usage content =>
    simp only [importStep, Event.ts, spawnsInEvent, completionsInEvent]
    repeat' split
    all_goals simp [importPartsFold_spawns, pendingAdds]
  | system ts a b c d e2 =>
    simp only [importStep, Event.ts, spawnsInEvent, completionsInEvent]
    repeat' split
    all_goals simp [pendingAdds]
  | otherEvent ts =>
    simp only [importStep, Event.ts, spawnsInEvent, completionsInEvent]
    repeat' split
    all_goals simp [pendingAdds]

theorem import_parse_eq (ls : List Line) :
    import_parse ls = (decodeLines ls).foldl importStep ({} : ImportState) := by
  have hgen : ∀ st : ImportState,
      ls.foldl importLineStep st = (decodeLines ls).foldl importStep st := by
    induction ls with
    | nil => intro st; rfl
    | cons l rest ih =>
      intro st
      cases l <;> simp [decodeLines, importLineStep, List.filterMap_cons, ih]
  exact hgen {}


theorem getLast?_append_or {α : Type} (A B : List α) :
    (A ++ B).getLast? = B.getLast?.or A.getLast? := by
  induction A with
  | nil =>
    cases h : B.getLast? <;> simp [Option.or, h]
  | cons a A ih =>
    rw [List.cons_append, getLast?_cons_or, ih, getLast?_cons_or]
    cases hB : B.getLast? <;> cases hA : A.getLast? <;> simp [Option.or]

theorem lastFor_append (c : String) (xs ys : List (String × ToolUseResultPayload)) :
    lastFor c (xs ++ ys) = (lastFor c ys).or (lastFor c xs) := by
  simp only [lastFor, List.filterMap_append, getLast?_append_or]

theorem pendingAdds_map_fst (base : Nat) (pairs : List (SubagentRec × Option String)) :
    (pendingAdds base pairs).map Prod.fst = truthyIds pairs := by
  induction pairs generalizing base with
  | nil => rfl
  | cons pr rest ih =>
    show ((match pr.2 with
           | some c => if c = "" then [] else [(c, base)]
           | none => []) ++ pendingAdds (base + 1) rest).map Prod.fst
        = truthyIds (pr :: rest)
    rw [List.map_append, ih]
    rcases h2 : pr.2 with _ | c
    · simp [truthyIds, List.filterMap_cons, h2]
    · by_cases hc : c = ""
      · simp [truthyIds, List.filterMap_cons, h2, hc]
      · simp [truthyIds, List.filterMap_cons, h2, hc]

theorem truthyIds_append (xs ys : List (SubagentRec × Option String)) :
    truthyIds (xs ++ ys) = truthyIds xs ++ truthyIds ys := by
  simp [truthyIds, List.filterMap_append]

theorem pendingAdds_mem (base : Nat) (pairs : List (SubagentRec × Option String))
    (c : String) (j : Nat) (h : (c, j) ∈ pendingAdds base pairs) :
    ∃ k rec, pairs.get? k = some (rec, some c) ∧ c ≠ "" ∧ j = base + k := by
  induction pairs generalizing base with
  | nil => simp [pendingAdds] at h
  | cons pr rest ih =>
    have h2 : (c, j) ∈ (match pr.2 with
        | some c0 => if c0 = "" then [] else [(c0, base)]
        | none => ([] : List (String × Nat))) ++ pendingAdds (base + 1) rest := h
    rw [List.mem_append] at h2
    rcases h2 with hl | hr
    · rcases h3 : pr.2 with _ | c0
      · rw [h3] at hl; simp at hl
      · rw [h3] at hl
        by_cases hc0 : c0 = ""
        · simp [hc0] at hl
        · simp [hc0] at hl
          obtain ⟨hc, hj⟩ := hl
          refine ⟨0, pr.1, ?_, ?_, ?_⟩
          · exact congrArg some (by rw [hc, ← h3])
          · rw [hc]; exact hc0
          · omega
    · obtain ⟨k, rec, hk, hc, hj⟩ := ih (base + 1) hr
      exact ⟨k + 1, rec, by simpa using hk, hc, by omega⟩

theorem pendingAdds_mem_rev (base : Nat) (pairs : List (SubagentRec × Option String))
    (c : String) (k : Nat) (rec : SubagentRec)
    (hk : pairs.get? k = some (rec, some c)) (hc : c ≠ "") :
    (c, base + k) ∈ pendingAdds base pairs := by
  induction pairs generalizing base k with
  | nil => simp at hk
  | cons pr rest ih =>
    show (c, base + k) ∈ (match pr.2 with
        | some c0 => if c0 = "" then [] else [(c0, base)]
        | none => ([] : List (String × Nat))) ++ pendingAdds (base + 1) rest
    rw [List.mem_append]
    cases k with
    | zero =>
      simp at hk
      left
      rw [hk]
      show (c, base + 0) ∈ (if c = "" then [] else [(c, base)])
      rw [if_neg hc]
      simp
    | succ k0 =>
      right
      have := ih (base + 1) k0 (by simpa using hk)
      have harith : base + 1 + k0 = base + (k0 + 1) := by omega
      rw [harith] at this
      exact this

theorem lookup_none_not_mem {α β : Type} [BEq α] [LawfulBEq α]
    (m : List (α × β)) (c : α) (h : m.lookup c = none) :
    ∀ p ∈ m, p.1 ≠ c := by
  induction m with
  | nil => intro p hp; simp at hp
  | cons q rest ih =>
    intro p hp
    rcases List.mem_cons.mp hp with hpe | hpr
    · subst hpe
      intro hb
      rw [List.lookup] at h
      have : (c == p.1) = true := by simp [hb]
      rw [this] at h
      simp at h
    · refine ih ?_ p hpr
      rw [List.lookup] at h
      rcases hbe : (c == q.1) with _ | _
      · rw [hbe] at h; exact h
      · rw [hbe] at h; simp at h

theorem truthy_unique (pairs : List (SubagentRec × Option String)) (c : String)
    (hnd : (truthyIds pairs).Nodup) (hc : c ≠ "")
    (i j : Nat) (ri rj : SubagentRec)
    (hi : pairs.get? i = some (ri, some c)) (hj : pairs.get? j = some (rj, some c)) :
    i = j := by
  induction pairs generalizing i j with
  | nil => simp at hi
  | cons pr rest ih =>
    have hnd2 : (truthyIds rest).Nodup := by
      have hsplit : truthyIds (pr :: rest) = truthyIds [pr] ++ truthyIds rest := by
        simpa using truthyIds_append [pr] rest
      rw [hsplit] at hnd
      exact hnd.of_append_right
    have hmemrest : ∀ (k : Nat) (rk : SubagentRec),
        rest.get? k = some (rk, some c) → c ∈ truthyIds rest := by
      intro k rk hk
      have hm : (rk, some c) ∈ rest := List.get?_mem hk
      exact List.mem_filterMap.mpr ⟨(rk, some c), hm, by simp [hc]⟩
    cases i with
    | zero =>
      cases j with
      | zero => rfl
      | succ j0 =>
        exfalso
        simp at hi
        have hpr : truthyIds (pr :: rest) = c :: truthyIds rest := by
          simp [truthyIds, List.filterMap_cons, hi, hc]
        rw [hpr] at hnd
        exact (List.nodup_cons.mp hnd).1 (hmemrest j0 rj (by simpa using hj))
    | succ i0 =>
      cases j with
      | zero =>
        exfalso
        simp at hj
        have hpr : truthyIds (pr :: rest) = c :: truthyIds rest := by
          simp [truthyIds, List.filterMap_cons, hj, hc]
        rw [hpr] at hnd
        exact (List.nodup_cons.mp hnd).1 (hmemrest i0 ri (by simpa using hi))
      | succ j0 =>
        have := ih hnd2 i0 j0 (by simpa using hi) (by simpa using hj)
        omega

theorem setEnrich_length (sps : List SubagentRec) (pend : List (String × Nat))
    (c : String) (r : ToolUseResultPayload) :
    (setEnrich sps pend c r).length = sps.length := by
  rw [setEnrich]
  rcases hlk : List.lookup c pend with _ | idx
  · rfl
  · show (match sps.get? idx with
          | some rec => sps.set idx (enrichSubagent rec r)
          | none => sps).length = sps.length
    rcases hg : sps.get? idx with _ | rec
    · rfl
    · simp

theorem applyComps_nil (pairs : List (SubagentRec × Option String))
    (sps : List SubagentRec) (hlen : sps.length = pairs.length) :
    applyComps [] pairs sps = sps := by
  induction pairs generalizing sps with
  | nil =>
    cases sps with
    | nil => rfl
    | cons a l => simp at hlen
  | cons pr rest ih =>
    cases sps with
    | nil => simp at hlen
    | cons a l =>
      show ((pr :: rest).zip (a :: l)).map _ = a :: l
      rw [List.zip_cons_cons, List.map_cons]
      have hta : ((pr :: rest).zip (a :: l)).map (fun q : (SubagentRec × Option String) × SubagentRec =>
          match q.1.2 with
          | some c => if c = "" then q.2 else
              match lastFor c [] with
              | some r => enrichSubagent q.2 r
              | none => q.2
          | none => q.2) = applyComps [] (pr :: rest) (a :: l) := rfl
      have htail : applyComps [] rest l = l := ih l (by simpa using hlen)
      have hhead : (match pr.2 with
          | some c => if c = "" then a else
              match lastFor c ([] : List (String × ToolUseResultPayload)) with
              | some r => enrichSubagent a r
              | none => a
          | none => a) = a := by
        rcases hp2 : pr.2 with _ | c
        · rfl
        · show (if c = "" then a else
              match lastFor c ([] : List (String × ToolUseResultPayload)) with
              | some r => enrichSubagent a r
              | none => a) = a
          by_cases hc : c = ""
          · rw [if_pos hc]
          · rw [if_neg hc]
            rfl
      rw [hhead]
      show a :: applyComps [] rest l = a :: l
      rw [htail]


theorem get?_set_self {α : Type} (l : List α) (i : Nat) (a : α) (h : i < l.length) :
    (l.set i a).get? i = some a := by
  induction l generalizing i with
  | nil => simp at h
  | cons b t ih =>
    cases i with
    | zero => rfl
    | succ i0 => exact ih i0 (by simpa using h)

theorem get?_set_ne {α : Type} (l : List α) (i j : Nat) (a : α) (h : i ≠ j) :
    (l.set i a).get? j = l.get? j := by
  induction l generalizing i j with
  | nil => rfl
  | cons b t ih =>
    cases i with
    | zero =>
      cases j with
      | zero => exact absurd rfl h
      | succ j0 => rfl
    | succ i0 =>
      cases j with
      | zero => rfl
      | succ j0 => exact ih i0 j0 (by omega)

def specPoint (rec : SubagentRec) (oc : Option String) (evs : List Event) : SubagentRec :=
  match oc with
  | some c =>
    if c = "" then rec
    else
      match lastCompletionFor c evs with
      | some r => enrichSubagent rec r
      | none => rec
  | none => rec

def compPoint (cs : List (String × ToolUseResultPayload)) (oc : Option String)
    (x : SubagentRec) : SubagentRec :=
  match oc with
  | some c =>
    if c = "" then x
    else
      match lastFor c cs with
      | some r => enrichSubagent x r
      | none => x
  | none => x

theorem subagentsSpec_eq_map (es : List Event) :
    subagentsSpec es = (spawnOccs es).map fun occ => specPoint occ.1 occ.2.1 occ.2.2 := rfl

theorem applyComps_eq_map (cs : List (String × ToolUseResultPayload))
    (pairs : List (SubagentRec × Option String)) (sps : List SubagentRec) :
    applyComps cs pairs sps = (pairs.zip sps).map fun q => compPoint cs q.1.2 q.2 := rfl

theorem applyComps_get? (cs : List (String × ToolUseResultPayload))
    (pairs : List (SubagentRec × Option String)) (sps : List SubagentRec) (i : Nat) :
    (applyComps cs pairs sps).get? i
      = match pairs.get? i, sps.get? i with
        | some pr, some x => some (compPoint cs pr.2 x)
        | _, _ => none := by
  rw [applyComps_eq_map, List.get?_map, zip_get?]
  rcases pairs.get? i with _ | pr <;> rcases sps.get? i with _ | x <;> rfl

theorem lastCompletionFor_eq (c : String) (evs : List Event) :
    lastCompletionFor c evs = lastFor c (completionsIn evs) := rfl

theorem completionsIn_single (e : Event) : completionsIn [e] = completionsInEvent e := by
  simp [completionsIn]

theorem lastCompletionFor_snoc (c : String) (sfx : List Event) (e : Event) :
    lastCompletionFor c (sfx ++ [e])
      = (lastFor c (completionsInEvent e)).or (lastCompletionFor c sfx) := by
  rw [lastCompletionFor_eq, lastCompletionFor_eq, completionsIn_append,
    lastFor_append, completionsIn_single]

theorem lastFor_nil (c : String) : lastFor c [] = none := rfl

theorem spawnOccs_single (e : Event) :
    spawnOccs [e] = (spawnsInEvent e).map fun pr => (pr.1, pr.2, ([] : List Event)) := by
  simp [spawnOccs]

theorem specPoint_nil (rec : SubagentRec) (oc : Option String) :
    specPoint rec oc [] = rec := by
  rcases oc with _ | c
  · rfl
  · rw [specPoint]
    by_cases hc : c = ""
    · rw [if_pos hc]
    · rw [if_neg hc]
      rfl

theorem specPoint_snoc_nocomp (rec : SubagentRec) (oc : Option String)
    (sfx : List Event) (e : Event) (h : completionsInEvent e = []) :
    specPoint rec oc (sfx ++ [e]) = specPoint rec oc sfx := by
  rcases oc with _ | c
  · rfl
  · rw [specPoint, specPoint]
    by_cases hc : c = ""
    · rw [if_pos hc, if_pos hc]
    · rw [if_neg hc, if_neg hc, lastCompletionFor_snoc, h, lastFor_nil]
      cases lastCompletionFor c sfx <;> rfl

theorem specPoint_snoc (rec : SubagentRec) (oc : Option String)
    (sfx : List Event) (e : Event) :
    specPoint rec oc (sfx ++ [e])
      = compPoint (completionsInEvent e) oc (specPoint rec oc sfx) := by
  rcases oc with _ | c
  · rfl
  · rw [specPoint, specPoint, compPoint]
    by_cases hc : c = ""
    · rw [if_pos hc, if_pos hc, if_pos hc]
    · rw [if_neg hc, if_neg hc, if_neg hc, lastCompletionFor_snoc]
      rcases hl : lastFor c (completionsInEvent e) with _ | r
      · cases lastCompletionFor c sfx <;> rfl
      · rcases hs : lastCompletionFor c sfx with _ | r0
        · rfl
        · show enrichSubagent rec r = enrichSubagent (enrichSubagent rec r0) r
          rw [enrich_enrich]

theorem subagentsSpec_snoc_nocomp (es : List Event) (e : Event)
    (h : completionsInEvent e = []) :
    subagentsSpec (es ++ [e]) = subagentsSpec es ++ (spawnsInEvent e).map Prod.fst := by
  rw [subagentsSpec_eq_map, spawnOccs_append, List.map_append, List.map_map,
    subagentsSpec_eq_map, spawnOccs_single, List.map_map]
  congr 1
  · apply List.map_congr_left
    intro occ _
    exact specPoint_snoc_nocomp occ.1 occ.2.1 occ.2.2 e h
  · apply List.map_congr_left
    intro pr _
    exact specPoint_nil pr.1 pr.2

theorem subagentsSpec_snoc_nospawn (es : List Event) (e : Event)
    (h : spawnsInEvent e = []) :
    subagentsSpec (es ++ [e])
      = applyComps (completionsInEvent e) (spawnPairs es) (subagentsSpec es) := by
  rw [applyComps_eq_map, ← spawnOccs_pairs, subagentsSpec_eq_map es, List.zip_map',
    List.map_map, subagentsSpec_eq_map (es ++ [e]), spawnOccs_append, List.map_append,
    spawnOccs_single, h, List.map_nil, List.map_nil, List.append_nil, List.map_map]
  apply List.map_congr_left
  intro occ _
  exact specPoint_snoc occ.1 occ.2.1 occ.2.2 e

theorem event_dichotomy (e : Event) :
    completionsInEvent e = [] ∨ spawnsInEvent e = [] := by
  cases e with
  | user ts content tur =>
    exact Or.inr rfl
  | assistant ts model usage content => exact Or.inl rfl
  | system ts a b c d e2 => exact Or.inl rfl
  | otherEvent ts => exact Or.inl rfl


theorem setEnrich_get? (pairs : List (SubagentRec × Option String))
    (hnd : (truthyIds pairs).Nodup)
    (sps : List SubagentRec) (hlen : sps.length = pairs.length)
    (c : String) (r : ToolUseResultPayload) (i : Nat)
    (pr : SubagentRec × Option String) (hp : pairs.get? i = some pr) :
    (setEnrich sps ((pendingAdds 0 pairs).reverse) c r).get? i
      = if pr.2 = some c ∧ c ≠ ""
        then (sps.get? i).map (fun x => enrichSubagent x r)
        else sps.get? i := by
  have hilt : i < sps.length := by
    rw [hlen]
    by_contra hge
    rw [List.get?_eq_none.mpr (by omega)] at hp
    exact Option.noConfusion hp
  rw [setEnrich]
  rcases hlk : ((pendingAdds 0 pairs).reverse).lookup c with _ | idx
  · have hnm := lookup_none_not_mem _ c hlk
    by_cases hcase : pr.2 = some c ∧ c ≠ ""
    · exfalso
      obtain ⟨hp2, hcne⟩ := hcase
      have hpe : pairs.get? i = some (pr.1, some c) := by
        rw [hp]
        exact congrArg some (by rw [← hp2])
      have hmem : (c, 0 + i) ∈ pendingAdds 0 pairs :=
        pendingAdds_mem_rev 0 pairs c i pr.1 hpe hcne
      have hmem2 : (c, 0 + i) ∈ (pendingAdds 0 pairs).reverse :=
        List.mem_reverse.mpr hmem
      exact hnm (c, 0 + i) hmem2 rfl
    · rw [if_neg hcase]
  · have hmem : (c, idx) ∈ (pendingAdds 0 pairs).reverse := lookup_mem _ c idx hlk
    have hmem2 : (c, idx) ∈ pendingAdds 0 pairs := List.mem_reverse.mp hmem
    obtain ⟨k, rec, hk, hcne, hidx⟩ := pendingAdds_mem 0 pairs c idx hmem2
    have hidxk : idx = k := by omega
    subst hidxk
    have hklt : idx < sps.length := by
      rw [hlen]
      by_contra hge
      rw [List.get?_eq_none.mpr (by omega)] at hk
      exact Option.noConfusion hk
    show (match sps.get? idx with
          | some rec2 => sps.set idx (enrichSubagent rec2 r)
          | none => sps).get? i
        = _
    rcases hg : sps.get? idx with _ | xi
    · exfalso
      rw [List.get?_eq_none] at hg
      omega
    · by_cases hie : i = idx
      · subst hie
        rw [get?_set_self sps i (enrichSubagent xi r) hilt]
        have hpre : pr = (rec, some c) := by
          have := hp.symm.trans hk
          exact Option.some.inj this
        have hcond : pr.2 = some c ∧ c ≠ "" := by
          rw [hpre]
          exact ⟨rfl, hcne⟩
        rw [if_pos hcond, hg]
        rfl
      · rw [get?_set_ne sps idx i (enrichSubagent xi r) (fun he => hie he.symm)]
        by_cases hcase : pr.2 = some c ∧ c ≠ ""
        · exfalso
          obtain ⟨hp2, _⟩ := hcase
          have hpe : pairs.get? i = some (pr.1, some c) := by
            rw [hp]
            exact congrArg some (by rw [← hp2])
          exact hie (truthy_unique pairs c hnd hcne i idx pr.1 rec hpe hk)
        · rw [if_neg hcase]

theorem applyComps_step (pairs : List (SubagentRec × Option String))
    (hnd : (truthyIds pairs).Nodup)
    (sps : List SubagentRec) (hlen : sps.length = pairs.length)
    (c : String) (r : ToolUseResultPayload) (cs : List (String × ToolUseResultPayload)) :
    applyComps cs pairs (setEnrich sps ((pendingAdds 0 pairs).reverse) c r)
      = applyComps ((c, r) :: cs) pairs sps := by
  apply List.ext
  intro i
  rw [applyComps_get?, applyComps_get?]
  rcases hp : pairs.get? i with _ | pr
  · rcases (setEnrich sps ((pendingAdds 0 pairs).reverse) c r).get? i with _ | y <;>
      rcases sps.get? i with _ | x <;> rfl
  · rw [setEnrich_get? pairs hnd sps hlen c r i pr hp]
    rcases hx : sps.get? i with _ | x
    · by_cases hcase : pr.2 = some c ∧ c ≠ ""
      · rw [if_pos hcase]
        rfl
      · rw [if_neg hcase]
    · by_cases hcase : pr.2 = some c ∧ c ≠ ""
      · rw [if_pos hcase]
        show some (compPoint cs pr.2 (enrichSubagent x r))
            = some (compPoint ((c, r) :: cs) pr.2 x)
        obtain ⟨hp2, hcne⟩ := hcase
        rw [hp2, compPoint, compPoint, if_neg hcne, if_neg hcne,
          lastFor_cons c c r cs, if_pos rfl]
        rcases hl : lastFor c cs with _ | r2
        · rfl
        · rfl
      · rw [if_neg hcase]
        show some (compPoint cs pr.2 x) = some (compPoint ((c, r) :: cs) pr.2 x)
        rcases hp2 : pr.2 with _ | c2
        · rfl
        · rw [compPoint, compPoint]
          by_cases hc2 : c2 = ""
          · rw [if_pos hc2, if_pos hc2]
          · rw [if_neg hc2, if_neg hc2, lastFor_cons c2 c r cs]
            have hne : ¬(c2 = c) := by
              intro he
              exact hcase ⟨by rw [hp2, he], by rw [← he]; exact hc2⟩
            rw [if_neg hne]

theorem setEnrichFold_eq_applyComps (pairs : List (SubagentRec × Option String))
    (hnd : (truthyIds pairs).Nodup)
    (cs : List (String × ToolUseResultPayload)) :
    ∀ sps : List SubagentRec, sps.length = pairs.length →
      cs.foldl (fun sps2 q => setEnrich sps2 ((pendingAdds 0 pairs).reverse) q.1 q.2) sps
        = applyComps cs pairs sps := by
  induction cs with
  | nil =>
    intro sps hlen
    rw [List.foldl_nil, applyComps_nil pairs sps hlen]
  | cons q cs2 ih =>
    intro sps hlen
    rw [List.foldl_cons]
    rw [ih (setEnrich sps ((pendingAdds 0 pairs).reverse) q.1 q.2)
      (by rw [setEnrich_length]; exact hlen)]
    rw [applyComps_step pairs hnd sps hlen q.1 q.2 cs2]


theorem importFold_spec (es : List Event) (hnd : (spawnIds es).Nodup) :
    (es.foldl importStep ({} : ImportState)).subagents = subagentsSpec es
    ∧ (es.foldl importStep ({} : ImportState)).pending
      = (pendingAdds 0 (spawnPairs es)).reverse := by
  induction es using List.reverseRecOn with
  | nil => exact ⟨rfl, rfl⟩
  | append_singleton es e ih =>
    have hsp1 : spawnPairs [e] = spawnsInEvent e := by simp [spawnPairs]
    have hsplit : spawnIds (es ++ [e]) = spawnIds es ++ truthyIds (spawnsInEvent e) := by
      rw [spawnIds, spawnPairs_append, truthyIds_append, hsp1, spawnIds]
    rw [hsplit] at hnd
    obtain ⟨ih1, ih2⟩ := ih hnd.of_append_left
    rw [List.foldl_append, List.foldl_cons, List.foldl_nil]
    obtain ⟨hpend, hsub⟩ := importStep_subagents (es.foldl importStep ({} : ImportState)) e
    have hlen : (es.foldl importStep ({} : ImportState)).subagents.length
        = (spawnPairs es).length := by
      rw [ih1, subagentsSpec_length]
    constructor
    · rcases event_dichotomy e with hcomp | hspawn
      · rw [hsub, hcomp, List.foldl_nil, ih1, subagentsSpec_snoc_nocomp es e hcomp]
      · have hfold := setEnrichFold_eq_applyComps (spawnPairs es) hnd.of_append_left
          (completionsInEvent e) (subagentsSpec es) (subagentsSpec_length es)
        rw [hsub, hspawn, List.map_nil, List.append_nil, ih1, ih2, hfold,
          subagentsSpec_snoc_nospawn es e hspawn]
    · rw [hpend, ih2, hlen, spawnPairs_append, hsp1, pendingAdds_append,
        List.reverse_append, Nat.zero_add]

/-- C9: over any decoded session event stream whose agent-spawn correlation
ids are distinct, the importer creates one sub-agent record per
agent-classified tool invocation at spawn time, keyed by the invocation's
correlation id, enriches that record in place with the payload of the last
matching later completion event when one arrives, and otherwise persists the
record in its spawned-only state — exactly the `subagentsSpec` lifecycle. -/
theorem C9_subagent_lifecycle (ls : List Line)
    (hnd : (spawnIds (decodeLines ls)).Nodup) :
    (import_parse ls).subagents = subagentsSpec (decodeLines ls)
    ∧ (import_parse ls).subagents.length = (spawnPairs (decodeLines ls)).length := by
  rw [import_parse_eq]
  refine ⟨(importFold_spec _ hnd).1, ?_⟩
  rw [(importFold_spec _ hnd).1, subagentsSpec_length]

def c9Lines : List Line :=
  [Line.ok (Event.assistant (some 10) (some "claude-opus") {}
     [ContentPart.text "Spawning agents",
      ContentPart.tool_use (some "t1") (some "Task")
        { subagent_type := some "researcher", description := some "dig",
          prompt := some "find facts", model := some "haiku" },
      ContentPart.tool_use (some "t2") (some "Task")
        { subagent_type := some "coder", description := some "build" }]),
   Line.malformed,
   Line.ok (Event.user (some 20)
     (UserContent.parts [UserPart.tool_result (some "t1") false "done"])
     (some { agentId := some "agent-xyz", status := some "completed",
             totalDurationMs := some 1234, totalTokens := some 77,
             totalToolUseCount := some 5 }))]

theorem C9_subagent_lifecycle_witness :
    (spawnIds (decodeLines c9Lines)).Nodup
    ∧ ((import_parse c9Lines).subagents = subagentsSpec (decodeLines c9Lines)
       ∧ (import_parse c9Lines).subagents.length
           = (spawnPairs (decodeLines c9Lines)).length) :=
  ⟨by decide, C9_subagent_lifecycle c9Lines (by decide)⟩

end ClaudeCoach
